import Mathlib

/-!
Shallow embedding of the SockBot communication core: the browser
abstraction (task queue worker, chunked read submission, login sequencing,
trust-level normalization, and the nested-quote-stripping text cleaner
`cleanPostRaw`) and the command parser (`parseShortCommand`,
`parseMentionCommand`, `parseCommands` and their event dispatch).

Strings are modelled as `List Char`; JavaScript regular-expression
replacements are modelled by dedicated scanners that implement the exact
matching semantics of the concrete patterns used by the source.
-/

namespace SockBot

/-! ## Characters and small string helpers -/

/-- The `\x02` (STX) sentinel marking quote-open tags. -/
def STX : Char := Char.ofNat 2

/-- The `\x03` (ETX) sentinel marking quote-close tags. -/
def ETX : Char := Char.ofNat 3

/-- The `\x10` (DLE) escape inserted after `[` inside code spans. -/
def DLE : Char := Char.ofNat 16

/-- The `\x1a` (SUB) placeholder left where a quote block was removed. -/
def SUB : Char := Char.ofNat 26

/-- The backtick character. -/
def BT : Char := Char.ofNat 96

/-- JavaScript `\s` for the ASCII range: space, tab, newline, carriage
return, vertical tab and form feed. -/
def isWs (c : Char) : Bool :=
  c == ' ' || c == '\t' || c == '\n' || c == '\r' ||
    c == Char.ofNat 11 || c == Char.ofNat 12

/-- JavaScript `String.prototype.toLowerCase`, restricted to ASCII. -/
def lower (cs : List Char) : List Char := cs.map Char.toLower

/-- JavaScript `str.replace(/\s+$/, '')`: drop trailing whitespace. -/
def trimEnd (cs : List Char) : List Char := (cs.reverse.dropWhile isWs).reverse

/-- One `foldr` step of `splitWs`: the Bool records whether the character
just to the right was whitespace (so a whitespace run splits only once). -/
def splitWsStep (c : Char) (acc : Bool × List (List Char)) :
    Bool × List (List Char) :=
  if isWs c then
    if acc.1 then acc else (true, [] :: acc.2)
  else
    (false,
      match acc.2 with
      | t :: ts => (c :: t) :: ts
      | [] => [[c]])

/-- JavaScript `line.split(/\s+/)`: split on whitespace runs; a leading or
trailing run contributes an empty field, and `""` splits to `[""]`. -/
def splitWs (cs : List Char) : List (List Char) :=
  (cs.foldr splitWsStep (false, [[]])).2

/-- JavaScript `args.join(' ')`. -/
def joinSpace : List (List Char) → List Char
  | [] => []
  | [a] => a
  | a :: rest => a ++ ' ' :: joinSpace rest

/-- JavaScript `raw.split('\n')`. -/
def splitLines : List Char → List (List Char)
  | [] => [[]]
  | '\n' :: rest => [] :: splitLines rest
  | c :: rest =>
    match splitLines rest with
    | l :: ls => (c :: l) :: ls
    | [] => [[c]]

/-! ## commands.js: parsing -/

/-- Parsed command data (`command` typedef of commands.js). -/
structure ParsedCommand where
  input : List Char
  command : List Char
  args : List (List Char)
  mention : Option (List Char)
deriving DecidableEq, Repr

/-- The test of `/^!\S{3,}(\s|$)/` on a line: a `!` followed by at least
three non-whitespace characters ending at whitespace or end of line (the
maximal non-whitespace run after `!` must have length at least 3). -/
def shortTest (line : List Char) : Bool :=
  match line with
  | c :: rest => c == '!' && 3 ≤ (rest.takeWhile (fun d => !isWs d)).length
  | [] => false

/-- `parseShortCommand` of commands.js: on a matching line, split on
whitespace, shift the first token and drop its `!` to get the (lowercased)
command name; the rest are the arguments and there is no mention. -/
def parseShortCommand (line : List Char) : Option ParsedCommand :=
  if shortTest line then
    match splitWs line with
    | first :: rest => some ⟨line, lower (first.drop 1), rest, none⟩
    | [] => none
  else none

/-- Case-insensitively strip `u` from the front of `s`, returning the
remainder on success. -/
def ciStrip : List Char → List Char → Option (List Char)
  | [], s => some s
  | _ :: _, [] => none
  | a :: u, b :: s => if a.toLower == b.toLower then ciStrip u s else none

/-- The test of `new RegExp('^@' + username + '\\s\\S{3,}(\\s|$)', 'i')`:
an `@`, the configured name matched case-insensitively, one whitespace
character, then at least three non-whitespace characters ending at
whitespace or end of line. -/
def mentionTest (username line : List Char) : Bool :=
  match line with
  | '@' :: rest =>
    match ciStrip username rest with
    | some (c :: rest2) =>
      isWs c && 3 ≤ (rest2.takeWhile (fun d => !isWs d)).length
    | _ => false
  | _ => false

/-- `parseMentionCommand` of commands.js: on a matching line, split on
whitespace, shift the mention token and then the command token (lowercased);
`input` is rebuilt as `'!' + command + ' ' + args.join(' ')` with trailing
whitespace removed. -/
def parseMentionCommand (username line : List Char) : Option ParsedCommand :=
  if mentionTest username line then
    match splitWs line with
    | mention :: cmd :: rest =>
      some ⟨trimEnd ('!' :: lower cmd ++ ' ' :: joinSpace rest),
        lower cmd, rest, some mention⟩
    | _ => none
  else none

/-- A post as seen by `parseCommands`: only its `raw` field is read, and a
missing field is `none`. -/
structure CPost where
  raw : Option (List Char)
deriving DecidableEq

/-- The command-extraction part of `parseCommands` of commands.js: a falsy
post or falsy `raw` yields no commands; otherwise each newline-separated
line is right-trimmed and parsed as a short command when it starts with `!`
and as a mention command otherwise, keeping the successful parses. -/
def parseCommands (username : List Char) (post : Option CPost) :
    List ParsedCommand :=
  match post with
  | none => []
  | some p =>
    match p.raw with
    | none => []
    | some raw =>
      if raw = [] then []
      else
        ((splitLines raw).map trimEnd).filterMap fun line =>
          match line with
          | c :: _ =>
            if c == '!' then parseShortCommand line
            else parseMentionCommand username line
          | [] => parseMentionCommand username []

/-- The synchronous contract of `parseCommands`: a missing callback throws
`callback must be supplied`; otherwise the callback is invoked with a null
error and the parsed command list (dispatch is deferred and cannot reach
this result). -/
def parseCommandsCall (username : List Char) (post : Option CPost)
    (callbackSupplied : Bool) :
    Except (List Char) (Option (List Char) × List ParsedCommand) :=
  if callbackSupplied then .ok (none, parseCommands username post)
  else .error ("callback must be supplied").data

/-- The deferred dispatch for one parsed command: emit `command#<name>`;
when that was unhandled and the command has no mention, emit
`command#ERROR`; when that too was unhandled, emit a generic `error` event.
`handled` models the event bus's boolean emit result; the returned list is
the sequence of event names emitted. -/
def dispatchEvents (handled : List Char → Bool) (cmd : ParsedCommand) :
    List (List Char) :=
  let name := ("command#").data ++ cmd.command
  if handled name then [name]
  else if cmd.mention = none then
    if handled (("command#ERROR").data) then [name, ("command#ERROR").data]
    else [name, ("command#ERROR").data, ("error").data]
  else [name]

/-- Every event emitted by the deferred dispatch of one `parseCommands`
call. -/
def allDispatched (handled : List Char → Bool) (username : List Char)
    (post : Option CPost) : List (List Char) :=
  ((parseCommands username post).map (dispatchEvents handled)).flatten

/-! ## browser: the queue worker's body handling -/

/-- What the queue worker's `body` variable holds after
`try { body = JSON.parse(body); } catch (ignore) {}`: either the decode
succeeded, or `body` keeps its original value (the raw string, or
`undefined` when there was no body at all). -/
inductive BodyOut (β : Type) where
  | keep (orig : Option (List Char))
  | parsed (val : β)
deriving DecidableEq, Repr

/-- The body handling of `queueWorker`: `JSON.parse` (modelled by the
partial function `parse`) is attempted on the raw body; a throw (on an
undefined body or on a string that does not decode) is swallowed and `body`
keeps its previous value. -/
def queueWorkerBody {β : Type} (parse : List Char → Option β)
    (body : Option (List Char)) : BodyOut β :=
  match body with
  | none => .keep none
  | some s =>
    match parse s with
    | some v => .parsed v
    | none => .keep (some s)

/-! ## browser: readPosts batching -/

/-- An observable event of the `readPosts` loop: one queued batch task, or
the overall completion callback. -/
inductive RPEvent where
  | task (batch : List Nat)
  | complete
deriving DecidableEq, Repr

/-- The `async.whilst` loop of `readPosts`: while ids remain, splice off the
first (at most) 200 ids as one queued task; when the list is exhausted the
completion callback fires. The trace lists the events in order. -/
def readPostsTrace (postIds : List Nat) : List RPEvent :=
  if postIds.length = 0 then [.complete]
  else .task (postIds.take 200) :: readPostsTrace (postIds.drop 200)
termination_by postIds.length
decreasing_by
  simp only [List.length_drop]
  omega

/-- The batches submitted by `readPostsTrace`, in order. -/
def readPostsBatches (postIds : List Nat) : List (List Nat) :=
  (readPostsTrace postIds).filterMap fun e =>
    match e with
    | .task b => some b
    | .complete => none

/-! ## browser: login sequencing -/

/-- A network task observable in the login sequence. -/
inductive NetStep where
  | csrfTask
  | loginTask
deriving DecidableEq, Repr

/-- `getCSRF`: queue the `/session/csrf.json` task; on error the callback
receives the error and no header is written; on success the csrf value of
the body (`(data || {}).csrf`) is merged into the default headers and the
callback receives null. Returns (queued tasks, header written, callback
outcome); the network outcome is the parameter `res`. -/
def getCSRFRun (res : Except (List Char) (Option (List Char))) :
    List NetStep × Option (Option (List Char)) × Except (List Char) Unit :=
  ([.csrfTask],
    match res with
    | .error _ => none
    | .ok d => some d,
    match res with
    | .error e => .error e
    | .ok _ => .ok ())

/-- `doLogin`: queue the `/session` POST; the callback receives the error,
or the user payload on success. -/
def doLoginRun (res : Except (List Char) (List Char)) :
    List NetStep × Except (List Char) (List Char) :=
  ([.loginTask],
    match res with
    | .error e => .error e
    | .ok u => .ok u)

/-- `login`: run `getCSRF`; if its callback reports an error, surface that
error to the caller; otherwise run `doLogin` and surface its outcome. The
first component collects the queued network tasks in order. -/
def loginRun (csrfRes : Except (List Char) (Option (List Char)))
    (loginRes : Except (List Char) (List Char)) :
    List NetStep × Except (List Char) (List Char) :=
  let g := getCSRFRun csrfRes
  match g.2.2 with
  | .error e => (g.1, .error e)
  | .ok _ =>
    let d := doLoginRun loginRes
    (g.1 ++ d.1, d.2)

/-! ## browser: trust levels -/

/- SockBot virtual trust levels (the `trustLevels` enum). -/
namespace trustLevels

def owner : Nat := 9

def admin : Nat := 8

def moderator : Nat := 7

def staff : Nat := 6

def tl4 : Nat := 4

def tl3 : Nat := 3

def tl2 : Nat := 2

def tl1 : Nat := 1

def tl0 : Nat := 0

def ignored : Nat := 0

end trustLevels

/-- A discourse post record, with the fields the embedded browser
operations read or write. -/
structure DPost where
  raw : Option (List Char)
  cleaned : Option (List Char)
  username : List Char
  trust_level : Nat
  admin : Bool
  moderator : Bool
  staff : Bool
deriving DecidableEq, Repr

/-- The configuration fields read by the embedded operations. -/
structure Config where
  username : List Char
  owner : List Char
  ignoreUsers : List (List Char)
deriving DecidableEq, Repr

/-- `setTrustLevel` of the browser module: owner, then admin, then
moderator, then staff, then the ignore list; the first matching rule wins
and otherwise the post's numeric trust level is left untouched. -/
def setTrustLevel (config : Config) (post : DPost) : DPost :=
  if post.username = config.owner then
    { post with trust_level := trustLevels.owner }
  else if post.admin then
    { post with trust_level := trustLevels.admin }
  else if post.moderator then
    { post with trust_level := trustLevels.moderator }
  else if post.staff then
    { post with trust_level := trustLevels.staff }
  else if post.username ∈ config.ignoreUsers then
    { post with trust_level := trustLevels.ignored }
  else post

/-! ## browser: cleanPostRaw

Each JavaScript `String.prototype.replace` call of `cleanPostRaw` is
embedded as a scanner over `List Char` implementing the matching semantics
of its concrete pattern. -/

/-- The character class `[\x00-\x08\x0b-\x1f]` of low control characters
(tab `\x09` and newline `\x0a` excepted). -/
def ctrlChar (c : Char) : Bool :=
  c.toNat ≤ 8 || (11 ≤ c.toNat && c.toNat ≤ 31)

/-- `replace(/\r\n?/g, '\n')`: normalize newlines. -/
def normNewlines : List Char → List Char
  | [] => []
  | '\r' :: '\n' :: rest => '\n' :: normNewlines rest
  | '\r' :: rest => '\n' :: normNewlines rest
  | c :: rest => c :: normNewlines rest

/-- `replace(/[\x00-\x08\x0b-\x1f]/g, '')`: drop low control characters. -/
def stripControl (cs : List Char) : List Char := cs.filter fun c => !ctrlChar c

/-- `hidetags`: `code.replace(/\[(?!\x10)/g, '[\x10')` — insert a DLE after
every `[` not already followed by one. -/
def hidetags : List Char → List Char
  | [] => []
  | ['['] => ['[', DLE]
  | '[' :: d :: rest2 =>
    if d == DLE then '[' :: DLE :: hidetags rest2
    else '[' :: DLE :: hidetags (d :: rest2)
  | c :: rest => c :: hidetags rest
termination_by cs => cs.length
decreasing_by
  · simp only [List.length_cons]
    omega
  · simp only [List.length_cons]
    omega
  · simp only [List.length_cons]
    omega

/-- Whether a line opens a lazy fence: the `^```(?:[^`\n].*)?\n` part of
`fencedlazy` — exactly three backticks (a fourth character, if any, is not
a backtick). -/
def flOpen (l : List Char) : Bool :=
  match l with
  | a :: b :: c :: rest =>
    a == BT && b == BT && c == BT &&
      (match rest with
       | [] => true
       | d :: _ => !(d == BT))
  | _ => false

/-- Whether a line closes a fence: the ```` ```(?:\n|$) ```` part — the line
is exactly three backticks. -/
def flClose (l : List Char) : Bool := l == [BT, BT, BT]

/-- Whether a line opens a greedy fence: the `^````.*\n` part of
`fencedgreedy` — at least four backticks. -/
def fgOpen (l : List Char) : Bool :=
  match l with
  | a :: b :: c :: d :: _ => a == BT && b == BT && c == BT && d == BT
  | _ => false

/-- For `fencedlazy`'s lazy `(?:.*\n)*?` part: starting at a line start,
the number of characters up to and including the *first* closing line
(including its newline when it has one); `none` when no closing line
follows. -/
def flFindClose (cs : List Char) : Option Nat :=
  let l := cs.takeWhile fun c => !(c == '\n')
  if flClose l then
    if cs.length ≤ l.length then some l.length else some (l.length + 1)
  else
    if cs.length ≤ l.length then none
    else (flFindClose (cs.drop (l.length + 1))).map fun n => l.length + 1 + n
termination_by cs.length
decreasing_by
  simp only [List.length_drop]
  omega

/-- For `fencedgreedy`'s greedy `(?:.*\n)*` part: the number of characters
up to and including the *last* closing line. -/
def fgFindClose (cs : List Char) : Option Nat :=
  let l := cs.takeWhile fun c => !(c == '\n')
  if cs.length ≤ l.length then
    if flClose l then some l.length else none
  else
    match fgFindClose (cs.drop (l.length + 1)) with
    | some n => some (l.length + 1 + n)
    | none => if flClose l then some (l.length + 1) else none
termination_by cs.length
decreasing_by
  simp only [List.length_drop]
  omega

/-- The global `fencedlazy` replace with replacement function `f`: at each
line start, a lazy-fence opener line followed (on a later line) by a
closing line forms a match, replaced by `f` applied to the matched text;
scanning resumes after the match. An opening line must be followed by a
newline, so the final (unterminated) line never opens a match. -/
def flGo (f : List Char → List Char) (cs : List Char) : List Char :=
  let l := cs.takeWhile fun c => !(c == '\n')
  if cs.length ≤ l.length then cs
  else if flOpen l then
    match flFindClose (cs.drop (l.length + 1)) with
    | some n =>
      f (l ++ '\n' :: (cs.drop (l.length + 1)).take n) ++
        flGo f ((cs.drop (l.length + 1)).drop n)
    | none => l ++ '\n' :: flGo f (cs.drop (l.length + 1))
  else l ++ '\n' :: flGo f (cs.drop (l.length + 1))
termination_by cs.length
decreasing_by
  all_goals
    simp only [List.length_drop]
    omega

/-- The global `fencedgreedy` replace with replacement function `f`. -/
def fgGo (f : List Char → List Char) (cs : List Char) : List Char :=
  let l := cs.takeWhile fun c => !(c == '\n')
  if cs.length ≤ l.length then cs
  else if fgOpen l then
    match fgFindClose (cs.drop (l.length + 1)) with
    | some n =>
      f (l ++ '\n' :: (cs.drop (l.length + 1)).take n) ++
        fgGo f ((cs.drop (l.length + 1)).drop n)
    | none => l ++ '\n' :: fgGo f (cs.drop (l.length + 1))
  else l ++ '\n' :: fgGo f (cs.drop (l.length + 1))
termination_by cs.length
decreasing_by
  all_goals
    simp only [List.length_drop]
    omega

/-- Whether `s` starts with `k` backticks. -/
def isRunHead (k : Nat) (s : List Char) : Bool :=
  (s.take k).length == k && (s.take k).all fun c => c == BT

/-- The least index at which a run of `k` backticks starts in `s`
(the lazy `[^]*?\1` search of the `inline` pattern). -/
def findRun (k : Nat) : List Char → Option Nat
  | [] => none
  | c :: rest =>
    if isRunHead k (c :: rest) then some 0
    else (findRun k rest).map (· + 1)

/-- Try a captured run of exactly `k` backticks at the current position:
the match, when the backreference is found, spans `k + j + k` characters. -/
def tryRun (k : Nat) (cs : List Char) : Option Nat :=
  (findRun k (cs.drop k)).map fun j => k + j + k

/-- Backtracking over the capture length of `` (`+) ``: try the longest
capture first, then shorter ones. -/
def tryK : Nat → List Char → Option Nat
  | 0, _ => none
  | k + 1, cs =>
    match tryRun (k + 1) cs with
    | some n => some n
    | none => tryK k cs

/-- The global `` /(`+)[^]*?\1/ `` replace with replacement function `f`:
at each backtick, try capture lengths from the full run downwards; on a
match, `f` is applied to the matched span and scanning resumes after it;
otherwise the scan advances one character. -/
def inlineGo (f : List Char → List Char) : List Char → List Char
  | [] => []
  | c :: rest =>
    if c == BT then
      match h : tryK (1 + (rest.takeWhile fun d => d == BT).length)
          (c :: rest) with
      | some n => f ((c :: rest).take n) ++ inlineGo f ((c :: rest).drop n)
      | none => c :: inlineGo f rest
    else c :: inlineGo f rest
termination_by cs => cs.length
decreasing_by
  · have hpos : ∀ (k : Nat) (s : List Char) (m : Nat),
        tryK k s = some m → 1 ≤ m := by
      intro k
      induction k with
      | zero =>
        intro s m hm
        simp [tryK] at hm
      | succ k ih =>
        intro s m hm
        simp only [tryK] at hm
        revert hm
        rcases hfr : tryRun (k + 1) s with _ | j
        · intro hm
          exact ih s m hm
        · intro hm
          have hj : j = m := Option.some.inj hm
          simp only [tryRun] at hfr
          revert hfr
          rcases hmap : findRun (k + 1) (s.drop (k + 1)) with _ | j0
          · intro hfr
            simp at hfr
          · intro hfr
            simp only [Option.map_some', Option.some.injEq] at hfr
            omega
    have := hpos _ _ _ h
    simp only [List.length_drop, List.length_cons]
    omega
  · simp only [List.length_cons]
    omega
  · simp only [List.length_cons]
    omega

/-- The open-tag pattern `\[quote(?:=[^[\]]*)?]` (case-insensitive),
checked just after a `[`: on a match, the number of characters of the tag
after the `[`. -/
def openTag (rest : List Char) : Option Nat :=
  match rest with
  | q :: u :: o :: t :: e :: more =>
    if q.toLower == 'q' && u.toLower == 'u' && o.toLower == 'o' &&
        t.toLower == 't' && e.toLower == 'e' then
      match more with
      | ']' :: _ => some 6
      | '=' :: more2 =>
        if (more2.dropWhile fun d => !(d == '[' || d == ']')).head? ==
            some ']' then
          some (7 + (more2.takeWhile fun d => !(d == '[' || d == ']')).length)
        else none
      | _ => none
    else none
  | _ => none

/-- `replace(/\[quote(?:=[^[\]]*)?]/ig, '\x02$&')`: prefix every quote-open
tag with STX. -/
def markOpen : List Char → List Char
  | [] => []
  | c :: rest =>
    if c == '[' then
      match openTag rest with
      | some n => STX :: '[' :: (rest.take n ++ markOpen (rest.drop n))
      | none => c :: markOpen rest
    else c :: markOpen rest
termination_by cs => cs.length
decreasing_by
  · simp only [List.length_drop, List.length_cons]
    omega
  · simp only [List.length_cons]
    omega
  · simp only [List.length_cons]
    omega

/-- `replace(/\[\/quote]/ig, '$&\x03')`: suffix every quote-close tag with
ETX. -/
def markClose : List Char → List Char
  | a :: b :: q :: u :: o :: t :: e :: z :: rest =>
    if a == '[' && b == '/' && q.toLower == 'q' && u.toLower == 'u' &&
        o.toLower == 'o' && t.toLower == 't' && e.toLower == 'e' &&
        z == ']' then
      a :: b :: q :: u :: o :: t :: e :: z :: ETX :: markClose rest
    else a :: markClose (b :: q :: u :: o :: t :: e :: z :: rest)
  | c :: rest => c :: markClose rest
  | [] => []
termination_by cs => cs.length
decreasing_by
  · simp only [List.length_cons]
    omega
  · simp only [List.length_cons]
    omega
  · simp only [List.length_cons]
    omega

/-- One global pass of `replace(/\x02[^\x02\x03]*\x03/g, '\x1a')`: an STX
whose next STX-or-ETX is an ETX forms a match (replaced by SUB); any other
character is copied. -/
def replaceInner : List Char → List Char
  | [] => []
  | c :: rest =>
    if c == STX &&
        ((rest.dropWhile fun d => !(d == STX || d == ETX)).head? ==
          some ETX) then
      SUB :: replaceInner
        (rest.drop ((rest.takeWhile fun d => !(d == STX || d == ETX)).length + 1))
    else c :: replaceInner rest
termination_by cs => cs.length
decreasing_by
  · simp only [List.length_drop, List.length_cons]
    omega
  · simp only [List.length_cons]
    omega

/-- The `do { … } while` loop of `cleanPostRaw`: repeat `replaceInner`
until it changes nothing, returning the fixed point. -/
def collapseLoop (cs : List Char) : List Char :=
  if h : replaceInner cs = cs then cs
  else collapseLoop (replaceInner cs)
termination_by cs.length
decreasing_by
  have key : ∀ (n : Nat) (s : List Char), s.length ≤ n →
      (replaceInner s).length ≤ s.length ∧
      (replaceInner s = s ∨ (replaceInner s).length < s.length) := by
    intro n
    induction n with
    | zero =>
      intro s hle
      have hnil : s = [] := List.eq_nil_of_length_eq_zero (Nat.le_zero.mp hle)
      subst hnil
      simp [replaceInner]
    | succ n ih =>
      intro s hle
      cases s with
      | nil => simp [replaceInner]
      | cons c rest =>
        simp only [replaceInner]
        by_cases hc : (c == STX &&
            ((rest.dropWhile fun d => !(d == STX || d == ETX)).head? ==
              some ETX)) = true
        · rw [if_pos hc]
          have hhd : ((rest.dropWhile fun d => !(d == STX || d == ETX)).head? =
              some ETX) := by
            have := (Bool.and_eq_true _ _).mp hc
            exact beq_iff_eq.mp this.2
          have hdne : (rest.dropWhile fun d => !(d == STX || d == ETX)) ≠ [] := by
            intro hnil
            rw [hnil] at hhd
            simp at hhd
          have hdpos : 0 < (rest.dropWhile fun d => !(d == STX || d == ETX)).length :=
            List.length_pos.mpr hdne
          have hdw := (List.dropWhile_sublist (l := rest)
            (p := fun d => !(d == STX || d == ETX))).length_le
          have htw := (List.takeWhile_sublist (l := rest)
            (p := fun d => !(d == STX || d == ETX))).length_le
          have htd : (rest.takeWhile fun d => !(d == STX || d == ETX)).length +
              (rest.dropWhile fun d => !(d == STX || d == ETX)).length =
              rest.length := by
            rw [← List.length_append, List.takeWhile_append_dropWhile]
          have htl : (rest.drop ((rest.takeWhile fun d =>
              !(d == STX || d == ETX)).length + 1)).length ≤ n := by
            simp only [List.length_drop]
            simp only [List.length_cons] at hle
            omega
          obtain ⟨ihle, _⟩ := ih _ htl
          constructor
          · simp only [List.length_cons, List.length_drop] at *
            omega
          · right
            simp only [List.length_cons, List.length_drop] at *
            omega
        · rw [if_neg hc]
          have hrle : rest.length ≤ n := by
            simp only [List.length_cons] at hle
            omega
          obtain ⟨ihle, ihor⟩ := ih rest hrle
          constructor
          · simp only [List.length_cons]
            omega
          · rcases ihor with heq | hlt
            · left
              rw [heq]
            · right
              simp only [List.length_cons]
              omega
  rcases (key cs.length cs (Nat.le_refl _)).2 with he | hlt
  · exact absurd he h
  · exact hlt

/-- One global pass of `replace(/\x02[^\x1a]*\x1a/g, '\x1a')`: an STX with
a later SUB is collapsed, with everything up to and including that first
SUB, into a single SUB. -/
def stripUnbalanced : List Char → List Char
  | [] => []
  | c :: rest =>
    if c == STX &&
        ((rest.dropWhile fun d => !(d == SUB)).head? == some SUB) then
      SUB :: stripUnbalanced
        (rest.drop ((rest.takeWhile fun d => !(d == SUB)).length + 1))
    else c :: stripUnbalanced rest
termination_by cs => cs.length
decreasing_by
  · simp only [List.length_drop, List.length_cons]
    omega
  · simp only [List.length_cons]
    omega

/-- One line of `replace(/^(`+)\x1a`/gm, '$1 `')`: a line starting with a
backtick run followed by SUB and a further backtick has the SUB replaced
by a space. -/
def guardLine (l : List Char) : List Char :=
  let run := l.takeWhile fun c => c == BT
  let rest := l.dropWhile fun c => c == BT
  if run.isEmpty then l
  else
    match rest with
    | a :: b :: rest2 =>
      if a == SUB && b == BT then run ++ ' ' :: BT :: rest2 else l
    | _ => l

/-- The full `replace(/^(`+)\x1a`/gm, '$1 `')` over every line. -/
def guardFence (cs : List Char) : List Char :=
  let l := cs.takeWhile fun c => !(c == '\n')
  if cs.length ≤ l.length then guardLine l
  else guardLine l ++ '\n' :: guardFence (cs.drop (l.length + 1))
termination_by cs.length
decreasing_by
  simp only [List.length_drop]
  omega

/-- The full text transform of `cleanPostRaw`, in the source's order:
normalize newlines, strip control characters, protect fenced and inline
code spans (`hidetags`), mark quote tags with STX/ETX, collapse balanced
quote blocks innermost-first, collapse unbalanced remains, guard against
coalescing backticks, strip the remaining control sentinels, and remove
fenced code blocks. -/
def cleanRaw (raw : List Char) : List Char :=
  flGo (fun _ => []) <|
    fgGo (fun _ => []) <|
      stripControl <|
        guardFence <|
          stripUnbalanced <|
            collapseLoop <|
              markClose <|
                markOpen <|
                  inlineGo hidetags <|
                    flGo hidetags <|
                      fgGo hidetags <|
                        stripControl <|
                          normNewlines raw

/-- `cleanPostRaw`: write the cleaned text (of `post.raw || ''`) to the
separate `cleaned` field, leaving `raw` and every other field unchanged. -/
def cleanPostRaw (post : DPost) : DPost :=
  { post with cleaned := some (cleanRaw (post.raw.getD [])) }

/-- Ordinary text characters (ASCII letters, digits, or a space): the
"surrounding text" pieces of the quote-stripping properties range over
these. -/
def plainChar (c : Char) : Bool :=
  (65 ≤ c.toNat && c.toNat ≤ 90) || (97 ≤ c.toNat && c.toNat ≤ 122) ||
    (48 ≤ c.toNat && c.toNat ≤ 57) || c == ' '

/-! ## Generic list lemmas -/

theorem takeWhile_append_of_all {α : Type} {p : α → Bool} {l : List α}
    (t : List α) (h : ∀ c ∈ l, p c = true) :
    (l ++ t).takeWhile p = l ++ t.takeWhile p := by
  induction l with
  | nil => simp
  | cons a l ih =>
    have ha : p a = true := h a (by simp)
    simp only [List.cons_append, List.takeWhile_cons, ha, if_true]
    rw [ih fun c hc => h c (by simp [hc])]

theorem dropWhile_append_of_all {α : Type} {p : α → Bool} {l : List α}
    (t : List α) (h : ∀ c ∈ l, p c = true) :
    (l ++ t).dropWhile p = t.dropWhile p := by
  induction l with
  | nil => simp
  | cons a l ih =>
    have ha : p a = true := h a (by simp)
    simp only [List.cons_append, List.dropWhile_cons, ha, if_true]
    exact ih fun c hc => h c (by simp [hc])

theorem drop_append_cons (X : List Char) (d : Char) (t : List Char) :
    (X ++ d :: t).drop (X.length + 1) = t := by
  have h : X ++ d :: t = (X ++ [d]) ++ t := by simp
  rw [h]
  have h2 : X.length + 1 = (X ++ [d]).length := by simp
  rw [h2, List.drop_left]

theorem takeWhile_eq_self_of_all {p : Char → Bool} {cs : List Char}
    (h : ∀ c ∈ cs, p c = true) : cs.takeWhile p = cs := by
  have := takeWhile_append_of_all (p := p) (l := cs) [] h
  simpa using this

/-! ## Facts about plain characters -/

theorem plain_ranges {c : Char} (h : plainChar c = true) :
    (65 ≤ c.toNat ∧ c.toNat ≤ 90) ∨ (97 ≤ c.toNat ∧ c.toNat ≤ 122) ∨
      (48 ≤ c.toNat ∧ c.toNat ≤ 57) ∨ c.toNat = 32 := by
  simp only [plainChar, Bool.or_eq_true, Bool.and_eq_true, decide_eq_true_eq,
    beq_iff_eq] at h
  rcases h with ((h | h) | h) | h
  · exact Or.inl h
  · exact Or.inr (Or.inl h)
  · exact Or.inr (Or.inr (Or.inl h))
  · subst h
    exact Or.inr (Or.inr (Or.inr rfl))

theorem plain_ne {c : Char} (h : plainChar c = true) (d : Char)
    (hd : plainChar d = false) : c ≠ d := by
  intro he
  rw [he, hd] at h
  exact Bool.false_ne_true h

theorem plain_beq_false {c : Char} (h : plainChar c = true) (d : Char)
    (hd : plainChar d = false) : (c == d) = false :=
  beq_eq_false_iff_ne.mpr (plain_ne h d hd)

theorem plain_not_ctrl {c : Char} (h : plainChar c = true) :
    ctrlChar c = false := by
  have hr := plain_ranges h
  simp only [ctrlChar, Bool.or_eq_false_iff, Bool.and_eq_false_iff,
    decide_eq_false_iff_not, not_le]
  omega

theorem all_plain_beq_false {A : List Char} (hA : A.all plainChar = true)
    (d : Char) (hd : plainChar d = false) : ∀ c ∈ A, (c == d) = false :=
  fun c hc => plain_beq_false (List.all_eq_true.mp hA c hc) d hd

theorem all_plain_not_ctrl {A : List Char} (hA : A.all plainChar = true) :
    ∀ c ∈ A, (!ctrlChar c) = true := by
  intro c hc
  rw [plain_not_ctrl (List.all_eq_true.mp hA c hc)]
  rfl

/-! ## Identity lemmas for the cleanPostRaw scanners -/

theorem normNewlines_eq_self {cs : List Char}
    (h : ∀ c ∈ cs, (c == '\r') = false) : normNewlines cs = cs := by
  induction cs with
  | nil => rfl
  | cons c rest ih =>
    have hc : c ≠ '\r' := beq_eq_false_iff_ne.mp (h c (by simp))
    rw [show normNewlines (c :: rest) = c :: normNewlines rest by
      simp [normNewlines, hc]]
    rw [ih fun d hd => h d (by simp [hd])]

theorem stripControl_eq_self {cs : List Char}
    (h : ∀ c ∈ cs, (!ctrlChar c) = true) : stripControl cs = cs :=
  List.filter_eq_self.mpr h

theorem hidetags_cons_ne {c : Char} (hc : (c == '[') = false)
    (t : List Char) : hidetags (c :: t) = c :: hidetags t := by
  have hne : c ≠ '[' := beq_eq_false_iff_ne.mp hc
  simp [hidetags, hne]

theorem hidetags_append {X : List Char} (t : List Char)
    (h : ∀ c ∈ X, (c == '[') = false) :
    hidetags (X ++ t) = X ++ hidetags t := by
  induction X with
  | nil => rfl
  | cons c rest ih =>
    rw [List.cons_append, hidetags_cons_ne (h c (by simp))]
    rw [ih fun d hd => h d (by simp [hd])]
    rfl

theorem markOpen_cons_ne {c : Char} (hc : (c == '[') = false)
    (t : List Char) : markOpen (c :: t) = c :: markOpen t := by
  simp [markOpen, hc]

theorem markOpen_append {X : List Char} (t : List Char)
    (h : ∀ c ∈ X, (c == '[') = false) :
    markOpen (X ++ t) = X ++ markOpen t := by
  induction X with
  | nil => rfl
  | cons c rest ih =>
    rw [List.cons_append, markOpen_cons_ne (h c (by simp))]
    rw [ih fun d hd => h d (by simp [hd])]
    rfl

theorem markOpen_eq_self {cs : List Char}
    (h : ∀ c ∈ cs, (c == '[') = false) : markOpen cs = cs := by
  have := markOpen_append (X := cs) [] h
  simpa [markOpen] using this

theorem markClose_cons_ne {c : Char} (hc : (c == '[') = false)
    (t : List Char) : markClose (c :: t) = c :: markClose t := by
  rcases t with _ | ⟨a1, t⟩
  · simp [markClose]
  rcases t with _ | ⟨a2, t⟩
  · simp [markClose]
  rcases t with _ | ⟨a3, t⟩
  · simp [markClose]
  rcases t with _ | ⟨a4, t⟩
  · simp [markClose]
  rcases t with _ | ⟨a5, t⟩
  · simp [markClose]
  rcases t with _ | ⟨a6, t⟩
  · simp [markClose]
  rcases t with _ | ⟨a7, t⟩
  · simp [markClose]
  · simp [markClose, hc]

theorem markClose_append {X : List Char} (t : List Char)
    (h : ∀ c ∈ X, (c == '[') = false) :
    markClose (X ++ t) = X ++ markClose t := by
  induction X with
  | nil => rfl
  | cons c rest ih =>
    rw [List.cons_append, markClose_cons_ne (h c (by simp))]
    rw [ih fun d hd => h d (by simp [hd])]
    rfl

theorem markClose_eq_self {cs : List Char}
    (h : ∀ c ∈ cs, (c == '[') = false) : markClose cs = cs := by
  have := markClose_append (X := cs) [] h
  simpa [markClose] using this

theorem replaceInner_cons_ne {c : Char} (hc : (c == STX) = false)
    (t : List Char) : replaceInner (c :: t) = c :: replaceInner t := by
  simp [replaceInner, hc]

theorem replaceInner_append {X : List Char} (t : List Char)
    (h : ∀ c ∈ X, (c == STX) = false) :
    replaceInner (X ++ t) = X ++ replaceInner t := by
  induction X with
  | nil => rfl
  | cons c rest ih =>
    rw [List.cons_append, replaceInner_cons_ne (h c (by simp))]
    rw [ih fun d hd => h d (by simp [hd])]
    rfl

theorem replaceInner_eq_self {cs : List Char}
    (h : ∀ c ∈ cs, (c == STX) = false) : replaceInner cs = cs := by
  have := replaceInner_append (X := cs) [] h
  simpa [replaceInner] using this

theorem stripUnbalanced_cons_ne {c : Char} (hc : (c == STX) = false)
    (t : List Char) : stripUnbalanced (c :: t) = c :: stripUnbalanced t := by
  simp [stripUnbalanced, hc]

theorem stripUnbalanced_eq_self {cs : List Char}
    (h : ∀ c ∈ cs, (c == STX) = false) : stripUnbalanced cs = cs := by
  induction cs with
  | nil => simp [stripUnbalanced]
  | cons c rest ih =>
    rw [stripUnbalanced_cons_ne (h c (by simp))]
    rw [ih fun d hd => h d (by simp [hd])]

theorem inlineGo_cons_ne (f : List Char → List Char) {c : Char}
    (hc : (c == BT) = false) (t : List Char) :
    inlineGo f (c :: t) = c :: inlineGo f t := by
  simp [inlineGo, hc]

theorem inlineGo_eq_self (f : List Char → List Char) {cs : List Char}
    (h : ∀ c ∈ cs, (c == BT) = false) : inlineGo f cs = cs := by
  induction cs with
  | nil => simp [inlineGo]
  | cons c rest ih =>
    rw [inlineGo_cons_ne f (h c (by simp))]
    rw [ih fun d hd => h d (by simp [hd])]

theorem inlineGo_append (f : List Char → List Char) {X : List Char}
    (t : List Char) (h : ∀ c ∈ X, (c == BT) = false) :
    inlineGo f (X ++ t) = X ++ inlineGo f t := by
  induction X with
  | nil => rfl
  | cons c rest ih =>
    rw [List.cons_append, inlineGo_cons_ne f (h c (by simp))]
    rw [ih fun d hd => h d (by simp [hd])]
    rfl

theorem all_cons_of {p : Char → Bool} {c : Char} (hc : p c = true)
    {l : List Char} (hl : ∀ d ∈ l, p d = true) : ∀ d ∈ c :: l, p d = true := by
  intro d hd
  rcases List.mem_cons.mp hd with rfl | hd
  · exact hc
  · exact hl d hd

theorem all_append_of {p : Char → Bool} {X Y : List Char}
    (hX : ∀ c ∈ X, p c = true) (hY : ∀ c ∈ Y, p c = true) :
    ∀ c ∈ X ++ Y, p c = true := by
  intro c hc
  rcases List.mem_append.mp hc with hc | hc
  · exact hX c hc
  · exact hY c hc

theorem allf_cons_of {d c : Char} (hc : (c == d) = false)
    {l : List Char} (hl : ∀ x ∈ l, (x == d) = false) :
    ∀ x ∈ c :: l, (x == d) = false := by
  intro x hx
  rcases List.mem_cons.mp hx with rfl | hx
  · exact hc
  · exact hl x hx

theorem allf_append_of {d : Char} {X Y : List Char}
    (hX : ∀ x ∈ X, (x == d) = false) (hY : ∀ x ∈ Y, (x == d) = false) :
    ∀ x ∈ X ++ Y, (x == d) = false := by
  intro x hx
  rcases List.mem_append.mp hx with hx | hx
  · exact hX x hx
  · exact hY x hx

theorem allf_nil {d : Char} : ∀ x ∈ ([] : List Char), (x == d) = false := by
  intro x hx
  exact absurd hx (List.not_mem_nil x)

theorem allf_concrete_append {d : Char} {X : List Char}
    (hX : (X.all fun x => !(x == d)) = true) {t : List Char}
    (ht : ∀ x ∈ t, (x == d) = false) : ∀ x ∈ X ++ t, (x == d) = false := by
  intro x hx
  rcases List.mem_append.mp hx with hx | hx
  · have := List.all_eq_true.mp hX x hx
    simpa using this
  · exact ht x hx

theorem all_concrete_append {p : Char → Bool} {X : List Char}
    (hX : X.all p = true) {t : List Char} (ht : ∀ x ∈ t, p x = true) :
    ∀ x ∈ X ++ t, p x = true := by
  intro x hx
  rcases List.mem_append.mp hx with hx | hx
  · exact List.all_eq_true.mp hX x hx
  · exact ht x hx

theorem all_bnot_of {d : Char} {X : List Char}
    (h : ∀ c ∈ X, (c == d) = false) : ∀ c ∈ X, (!(c == d)) = true := by
  intro c hc
  simp [h c hc]

theorem all_not_stop_of {X : List Char}
    (h1 : ∀ c ∈ X, (c == STX) = false) (h2 : ∀ c ∈ X, (c == ETX) = false) :
    ∀ c ∈ X, (!(c == STX || c == ETX)) = true := by
  intro c hc
  simp [h1 c hc, h2 c hc]

/-! ## Line-structure lemmas for the fence scanners -/

theorem line_take {l : List Char} (rest : List Char)
    (hl : ∀ c ∈ l, (c == '\n') = false) :
    (l ++ '\n' :: rest).takeWhile (fun c => !(c == '\n')) = l := by
  rw [takeWhile_append_of_all _ (all_bnot_of hl)]
  simp [List.takeWhile_cons]

theorem line_len {l : List Char} (rest : List Char) :
    ¬((l ++ '\n' :: rest).length ≤ l.length) := by
  simp only [List.length_append, List.length_cons]
  omega

theorem whole_line_take {cs : List Char}
    (h : ∀ c ∈ cs, (c == '\n') = false) :
    cs.takeWhile (fun c => !(c == '\n')) = cs :=
  takeWhile_eq_self_of_all (all_bnot_of h)

theorem flOpen_eq_false {l : List Char}
    (h : ∀ c ∈ l, (c == BT) = false) : flOpen l = false := by
  rcases l with _ | ⟨a, _ | ⟨b, _ | ⟨c, r⟩⟩⟩
  · rfl
  · rfl
  · rfl
  · simp [flOpen, h a (by simp)]

theorem fgOpen_eq_false {l : List Char}
    (h : ∀ c ∈ l, (c == BT) = false) : fgOpen l = false := by
  rcases l with _ | ⟨a, _ | ⟨b, _ | ⟨c, _ | ⟨d, r⟩⟩⟩⟩
  · rfl
  · rfl
  · rfl
  · rfl
  · simp [fgOpen, h a (by simp)]

theorem flClose_eq_false_of_mem {l : List Char} {c : Char} (hc : c ∈ l)
    (hne : (c == BT) = false) : flClose l = false := by
  have hl : l ≠ [BT, BT, BT] := by
    intro he
    subst he
    have hne' : c ≠ BT := beq_eq_false_iff_ne.mp hne
    simp [List.mem_cons] at hc
    exact hne' hc
  simp [flClose, hl]

theorem flGo_last (f : List Char → List Char) {cs : List Char}
    (h : ∀ c ∈ cs, (c == '\n') = false) : flGo f cs = cs := by
  rw [flGo]
  rw [whole_line_take h]
  simp

theorem fgGo_last (f : List Char → List Char) {cs : List Char}
    (h : ∀ c ∈ cs, (c == '\n') = false) : fgGo f cs = cs := by
  rw [fgGo]
  rw [whole_line_take h]
  simp

theorem flGo_cons_line (f : List Char → List Char) {l : List Char}
    (rest : List Char) (hl : ∀ c ∈ l, (c == '\n') = false)
    (ho : flOpen l = false) :
    flGo f (l ++ '\n' :: rest) = l ++ '\n' :: flGo f rest := by
  rw [flGo]
  rw [line_take rest hl, if_neg (line_len rest), ho]
  rw [drop_append_cons]
  simp

theorem fgGo_cons_line (f : List Char → List Char) {l : List Char}
    (rest : List Char) (hl : ∀ c ∈ l, (c == '\n') = false)
    (ho : fgOpen l = false) :
    fgGo f (l ++ '\n' :: rest) = l ++ '\n' :: fgGo f rest := by
  rw [fgGo]
  rw [line_take rest hl, if_neg (line_len rest), ho]
  rw [drop_append_cons]
  simp

theorem flGo_match (f : List Char → List Char) {l : List Char}
    (rest : List Char) (hl : ∀ c ∈ l, (c == '\n') = false)
    (ho : flOpen l = true) {n : Nat} (hfc : flFindClose rest = some n) :
    flGo f (l ++ '\n' :: rest) =
      f (l ++ '\n' :: rest.take n) ++ flGo f (rest.drop n) := by
  rw [flGo]
  rw [line_take rest hl, if_neg (line_len rest), ho]
  rw [drop_append_cons, hfc]
  simp

theorem flFindClose_skip {l : List Char} (rest : List Char)
    (hl : ∀ c ∈ l, (c == '\n') = false) (hc : flClose l = false) :
    flFindClose (l ++ '\n' :: rest) =
      (flFindClose rest).map fun n => l.length + 1 + n := by
  rw [flFindClose]
  rw [line_take rest hl, hc, if_neg (line_len rest)]
  rw [drop_append_cons]
  simp

theorem flFindClose_at_close (rest : List Char) :
    flFindClose ([BT, BT, BT] ++ '\n' :: rest) = some 4 := by
  rw [flFindClose]
  rw [line_take rest (by decide)]
  rw [if_neg (line_len rest)]
  simp [flClose]

/-! ## guardFence lemmas -/

theorem guardLine_eq_self_no_bt {l : List Char}
    (h : ∀ c ∈ l, (c == BT) = false) : guardLine l = l := by
  rcases l with _ | ⟨c, rest⟩
  · rfl
  · simp [guardLine, List.takeWhile_cons, h c (by simp)]

theorem guardLine_eq_self_no_sub {l : List Char}
    (h : ∀ c ∈ l, (c == SUB) = false) : guardLine l = l := by
  rw [guardLine]
  by_cases hr : (l.takeWhile fun c => c == BT).isEmpty
  · simp [hr]
  · simp only [hr, Bool.false_eq_true, if_false]
    rcases hd : l.dropWhile (fun c => c == BT) with _ | ⟨a, _ | ⟨b, t⟩⟩
    · simp
    · simp
    · have ha : a ∈ l := by
        have hsub := (List.dropWhile_sublist (p := fun c => c == BT)
          (l := l)).subset
        apply hsub
        rw [hd]
        simp
      simp [h a ha]

theorem guardFence_last {cs : List Char}
    (h : ∀ c ∈ cs, (c == '\n') = false) : guardFence cs = guardLine cs := by
  rw [guardFence]
  rw [whole_line_take h]
  simp

theorem guardFence_cons_line {l : List Char} (rest : List Char)
    (hl : ∀ c ∈ l, (c == '\n') = false) :
    guardFence (l ++ '\n' :: rest) =
      guardLine l ++ '\n' :: guardFence rest := by
  rw [guardFence]
  rw [line_take rest hl, if_neg (line_len rest)]
  rw [drop_append_cons]

/-! ## Step lemmas for the quote-marking scanners -/

theorem beq_stx_false_of_not_stop {c : Char}
    (h : (!(c == STX || c == ETX)) = true) : (c == STX) = false := by
  rcases hb : (c == STX) with _ | _
  · rfl
  · rw [hb] at h
    simp at h

theorem replaceInner_stx_match (P t : List Char)
    (hP : ∀ c ∈ P, (!(c == STX || c == ETX)) = true) :
    replaceInner (STX :: (P ++ ETX :: t)) = SUB :: replaceInner t := by
  have hdw : (P ++ ETX :: t).dropWhile (fun d => !(d == STX || d == ETX)) =
      ETX :: t := by
    rw [dropWhile_append_of_all _ hP]
    have hpred : (!(ETX == STX || ETX == ETX)) = false := by decide
    simp [List.dropWhile_cons, hpred]
  have htw : (P ++ ETX :: t).takeWhile (fun d => !(d == STX || d == ETX)) =
      P := by
    rw [takeWhile_append_of_all _ hP]
    have hpred : (!(ETX == STX || ETX == ETX)) = false := by decide
    simp [List.takeWhile_cons, hpred]
  simp only [replaceInner]
  rw [hdw, htw]
  simp [drop_append_cons]

theorem replaceInner_stx_skip (P t : List Char)
    (hP : ∀ c ∈ P, (!(c == STX || c == ETX)) = true) :
    replaceInner (STX :: (P ++ STX :: t)) =
      STX :: (P ++ replaceInner (STX :: t)) := by
  have hdw : (P ++ STX :: t).dropWhile (fun d => !(d == STX || d == ETX)) =
      STX :: t := by
    rw [dropWhile_append_of_all _ hP]
    have hpred : (!(STX == STX || STX == ETX)) = false := by decide
    simp [List.dropWhile_cons, hpred]
  have hcond : ((STX :: t).head? == some ETX) = false := by
    simp only [List.head?_cons]
    decide
  have step : replaceInner (STX :: (P ++ STX :: t)) =
      STX :: replaceInner (P ++ STX :: t) := by
    simp only [replaceInner]
    rw [hdw, hcond]
    simp
  rw [step]
  rw [replaceInner_append _ fun c hc => beq_stx_false_of_not_stop (hP c hc)]

theorem markOpen_quote (t : List Char) :
    markOpen ('[' :: 'q' :: 'u' :: 'o' :: 't' :: 'e' :: ']' :: t) =
      STX :: '[' :: 'q' :: 'u' :: 'o' :: 't' :: 'e' :: ']' :: markOpen t := by
  simp [markOpen, openTag]

theorem markOpen_closeTag (t : List Char) :
    markOpen ('[' :: '/' :: 'q' :: 'u' :: 'o' :: 't' :: 'e' :: ']' :: t) =
      '[' :: '/' :: 'q' :: 'u' :: 'o' :: 't' :: 'e' :: ']' :: markOpen t := by
  have h1 : ('/'.toLower == 'q') = false := by decide
  simp [markOpen, openTag, h1]

theorem markOpen_dle_quote (t : List Char) :
    markOpen ('[' :: DLE :: 'q' :: 'u' :: 'o' :: 't' :: 'e' :: ']' :: t) =
      '[' :: DLE :: 'q' :: 'u' :: 'o' :: 't' :: 'e' :: ']' :: markOpen t := by
  have h1 : (DLE.toLower == 'q') = false := by decide
  have h2 : (DLE == '[') = false := by decide
  simp [markOpen, openTag, h1, h2]

theorem markOpen_dle_close (t : List Char) :
    markOpen ('[' :: DLE :: '/' :: 'q' :: 'u' :: 'o' :: 't' :: 'e' :: ']' ::
      t) = '[' :: DLE :: '/' :: 'q' :: 'u' :: 'o' :: 't' :: 'e' :: ']' ::
      markOpen t := by
  have h1 : (DLE.toLower == 'q') = false := by decide
  have h2 : (DLE == '[') = false := by decide
  have h3 : ('/'.toLower == 'q') = false := by decide
  simp [markOpen, openTag, h1, h2, h3]

theorem markClose_cons_not_slash {d : Char} (hd : (d == '/') = false)
    (t : List Char) : markClose ('[' :: d :: t) = '[' :: markClose (d :: t) := by
  rcases t with _ | ⟨a1, t⟩
  · simp [markClose, hd]
  rcases t with _ | ⟨a2, t⟩
  · simp [markClose, hd]
  rcases t with _ | ⟨a3, t⟩
  · simp [markClose, hd]
  rcases t with _ | ⟨a4, t⟩
  · simp [markClose, hd]
  rcases t with _ | ⟨a5, t⟩
  · simp [markClose, hd]
  rcases t with _ | ⟨a6, t⟩
  · simp [markClose, hd]
  · simp [markClose, hd]

theorem markClose_close (t : List Char) :
    markClose ('[' :: '/' :: 'q' :: 'u' :: 'o' :: 't' :: 'e' :: ']' :: t) =
      '[' :: '/' :: 'q' :: 'u' :: 'o' :: 't' :: 'e' :: ']' :: ETX ::
        markClose t := by
  simp [markClose]

theorem hidetags_bracket_dle (t : List Char) :
    hidetags ('[' :: DLE :: t) = '[' :: DLE :: hidetags t := by
  simp [hidetags]

theorem hidetags_bracket_notdle {d : Char} (hd : (d == DLE) = false)
    (t : List Char) : hidetags ('[' :: d :: t) = '[' :: DLE ::
      hidetags (d :: t) := by
  simp [hidetags, hd]

/-! ## Step lemmas for the inline-code scanner -/

theorem isRunHead_cons_false {k : Nat} {x : Char} (hx : (x == BT) = false)
    (s : List Char) : isRunHead (k + 1) (x :: s) = false := by
  simp [isRunHead, List.take_succ_cons, hx]

theorem findRun_append {k : Nat} (hk : 0 < k) {X : List Char} (t : List Char)
    (hX : ∀ c ∈ X, (c == BT) = false) :
    findRun k (X ++ t) = (findRun k t).map (· + X.length) := by
  obtain ⟨m, rfl⟩ : ∃ m, k = m + 1 := ⟨k - 1, by omega⟩
  induction X with
  | nil =>
    cases h : findRun (m + 1) t <;> simp [h]
  | cons x X ih =>
    rw [List.cons_append]
    rw [show findRun (m + 1) (x :: (X ++ t)) =
        (findRun (m + 1) (X ++ t)).map (· + 1) by
      simp [findRun, isRunHead_cons_false (hX x (by simp))]]
    rw [ih fun c hc => hX c (by simp [hc])]
    cases h : findRun (m + 1) t <;> simp [h] <;> omega

theorem findRun_close (rest : List Char) :
    findRun 3 (BT :: BT :: BT :: rest) = some 0 := by
  have h : isRunHead 3 (BT :: BT :: BT :: rest) = true := by
    simp [isRunHead, List.take_succ_cons]
  simp [findRun, h]

theorem inlineGo_fence (f : List Char → List Char) (M B : List Char)
    (hM : ∀ c ∈ M, (c == BT) = false) (hB : ∀ c ∈ B, (c == BT) = false) :
    inlineGo f
        (BT :: BT :: BT :: '\n' :: (M ++ '\n' :: BT :: BT :: BT :: '\n' :: B)) =
      f (BT :: BT :: BT :: '\n' :: (M ++ '\n' :: [BT, BT, BT])) ++
        '\n' :: B := by
  have htw : (BT :: BT :: '\n' ::
      (M ++ '\n' :: BT :: BT :: BT :: '\n' :: B)).takeWhile
        (fun d => d == BT) = [BT, BT] := by
    simp [List.takeWhile_cons]
    decide
  have hfr : findRun 3 ('\n' :: (M ++ '\n' :: BT :: BT :: BT :: '\n' :: B)) =
      some (M.length + 2) := by
    have hX : ∀ c ∈ ('\n' :: (M ++ ['\n'])), (c == BT) = false :=
      allf_cons_of (by decide) (allf_append_of hM
        (allf_cons_of (by decide) allf_nil))
    have heq : '\n' :: (M ++ '\n' :: BT :: BT :: BT :: '\n' :: B) =
        ('\n' :: (M ++ ['\n'])) ++ (BT :: BT :: BT :: '\n' :: B) := by
      simp
    rw [heq, findRun_append (k := 3) (by norm_num) (BT :: BT :: BT :: '\n' :: B) hX]
    rw [findRun_close ('\n' :: B)]
    simp only [Option.map_some']
    congr 1
    simp
  have htk2 : tryK (1 + ((BT :: BT :: '\n' ::
      (M ++ '\n' :: BT :: BT :: BT :: '\n' :: B)).takeWhile
        fun d => d == BT).length)
      (BT :: BT :: BT :: '\n' :: (M ++ '\n' :: BT :: BT :: BT :: '\n' :: B)) =
      some (M.length + 8) := by
    rw [htw]
    show tryK 3 _ = _
    rw [show (3 : Nat) = 2 + 1 from rfl]
    simp only [tryK, tryRun]
    rw [show ((2 : Nat) + 1) = 3 from rfl]
    rw [show (BT :: BT :: BT :: '\n' ::
        (M ++ '\n' :: BT :: BT :: BT :: '\n' :: B)).drop 3 =
        '\n' :: (M ++ '\n' :: BT :: BT :: BT :: '\n' :: B) from rfl]
    rw [hfr]
    simp only [Option.map_some']
    congr 1
    omega
  have hlen : M.length + 8 =
      (BT :: BT :: BT :: '\n' :: (M ++ '\n' :: [BT, BT, BT])).length := by
    simp
  simp only [inlineGo]
  rw [if_pos (show (BT == BT) = true from rfl)]
  split
  next n heq =>
    rw [htk2] at heq
    have hn : n = M.length + 8 := (Option.some.inj heq).symm
    subst hn
    have hPc : (BT :: BT :: BT :: '\n' ::
        (M ++ '\n' :: BT :: BT :: BT :: '\n' :: B)) =
        (BT :: BT :: BT :: '\n' :: (M ++ '\n' :: [BT, BT, BT])) ++
          '\n' :: B := by
      simp
    rw [hPc, hlen, List.take_left, List.drop_left]
    rw [inlineGo_cons_ne f (by decide)]
    rw [inlineGo_eq_self f hB]
  next heq =>
    rw [htk2] at heq
    simp at heq

theorem stripControl_append (X Y : List Char) :
    stripControl (X ++ Y) = stripControl X ++ stripControl Y :=
  List.filter_append X Y

theorem stripControl_cons_ctrl {c : Char} (hc : ctrlChar c = true)
    (t : List Char) : stripControl (c :: t) = stripControl t := by
  simp [stripControl, List.filter_cons, hc]

theorem stripControl_cons_keep {c : Char} (hc : ctrlChar c = false)
    (t : List Char) : stripControl (c :: t) = c :: stripControl t := by
  simp [stripControl, List.filter_cons, hc]

theorem hidetags_quote (Q1 Q2 Q3 t : List Char)
    (h1 : ∀ c ∈ Q1, (c == '[') = false) (h2 : ∀ c ∈ Q2, (c == '[') = false)
    (h3 : ∀ c ∈ Q3, (c == '[') = false) :
    hidetags (Q1 ++ '[' :: 'q' :: 'u' :: 'o' :: 't' :: 'e' :: ']' ::
        (Q2 ++ '[' :: '/' :: 'q' :: 'u' :: 'o' :: 't' :: 'e' :: ']' ::
          (Q3 ++ t))) =
      Q1 ++ '[' :: DLE :: 'q' :: 'u' :: 'o' :: 't' :: 'e' :: ']' ::
        (Q2 ++ '[' :: DLE :: '/' :: 'q' :: 'u' :: 'o' :: 't' :: 'e' :: ']' ::
          (Q3 ++ hidetags t)) := by
  rw [hidetags_append _ h1]
  rw [hidetags_bracket_notdle (by decide)]
  rw [show ('q' :: 'u' :: 'o' :: 't' :: 'e' :: ']' ::
      (Q2 ++ '[' :: '/' :: 'q' :: 'u' :: 'o' :: 't' :: 'e' :: ']' ::
        (Q3 ++ t)) : List Char) =
      ['q', 'u', 'o', 't', 'e', ']'] ++
        (Q2 ++ '[' :: '/' :: 'q' :: 'u' :: 'o' :: 't' :: 'e' :: ']' ::
          (Q3 ++ t)) from rfl]
  rw [hidetags_append _ (by decide)]
  rw [hidetags_append _ h2]
  rw [hidetags_bracket_notdle (by decide)]
  rw [show ('/' :: 'q' :: 'u' :: 'o' :: 't' :: 'e' :: ']' ::
      (Q3 ++ t) : List Char) =
      ['/', 'q', 'u', 'o', 't', 'e', ']'] ++ (Q3 ++ t) from rfl]
  rw [hidetags_append _ (by decide)]
  rw [hidetags_append _ h3]
  simp

theorem hidetags_protected (Q1 Q2 Q3 t : List Char)
    (h1 : ∀ c ∈ Q1, (c == '[') = false) (h2 : ∀ c ∈ Q2, (c == '[') = false)
    (h3 : ∀ c ∈ Q3, (c == '[') = false) :
    hidetags (Q1 ++ '[' :: DLE :: 'q' :: 'u' :: 'o' :: 't' :: 'e' :: ']' ::
        (Q2 ++ '[' :: DLE :: '/' :: 'q' :: 'u' :: 'o' :: 't' :: 'e' :: ']' ::
          (Q3 ++ t))) =
      Q1 ++ '[' :: DLE :: 'q' :: 'u' :: 'o' :: 't' :: 'e' :: ']' ::
        (Q2 ++ '[' :: DLE :: '/' :: 'q' :: 'u' :: 'o' :: 't' :: 'e' :: ']' ::
          (Q3 ++ hidetags t)) := by
  rw [hidetags_append _ h1]
  rw [hidetags_bracket_dle]
  rw [show ('q' :: 'u' :: 'o' :: 't' :: 'e' :: ']' ::
      (Q2 ++ '[' :: DLE :: '/' :: 'q' :: 'u' :: 'o' :: 't' :: 'e' :: ']' ::
        (Q3 ++ t)) : List Char) =
      ['q', 'u', 'o', 't', 'e', ']'] ++
        (Q2 ++ '[' :: DLE :: '/' :: 'q' :: 'u' :: 'o' :: 't' :: 'e' :: ']' ::
          (Q3 ++ t)) from rfl]
  rw [hidetags_append _ (by decide)]
  rw [hidetags_append _ h2]
  rw [hidetags_bracket_dle]
  rw [show ('/' :: 'q' :: 'u' :: 'o' :: 't' :: 'e' :: ']' ::
      (Q3 ++ t) : List Char) =
      ['/', 'q', 'u', 'o', 't', 'e', ']'] ++ (Q3 ++ t) from rfl]
  rw [hidetags_append _ (by decide)]
  rw [hidetags_append _ h3]
  rfl

theorem markOpen_protected (Q1 Q2 Q3 t : List Char)
    (h1 : ∀ c ∈ Q1, (c == '[') = false) (h2 : ∀ c ∈ Q2, (c == '[') = false)
    (h3 : ∀ c ∈ Q3, (c == '[') = false) :
    markOpen (Q1 ++ '[' :: DLE :: 'q' :: 'u' :: 'o' :: 't' :: 'e' :: ']' ::
        (Q2 ++ '[' :: DLE :: '/' :: 'q' :: 'u' :: 'o' :: 't' :: 'e' :: ']' ::
          (Q3 ++ t))) =
      Q1 ++ '[' :: DLE :: 'q' :: 'u' :: 'o' :: 't' :: 'e' :: ']' ::
        (Q2 ++ '[' :: DLE :: '/' :: 'q' :: 'u' :: 'o' :: 't' :: 'e' :: ']' ::
          (Q3 ++ markOpen t)) := by
  rw [markOpen_append _ h1]
  rw [markOpen_dle_quote]
  rw [markOpen_append _ h2]
  rw [markOpen_dle_close]
  rw [markOpen_append _ h3]

theorem markClose_protected (Q1 Q2 Q3 t : List Char)
    (h1 : ∀ c ∈ Q1, (c == '[') = false) (h2 : ∀ c ∈ Q2, (c == '[') = false)
    (h3 : ∀ c ∈ Q3, (c == '[') = false) :
    markClose (Q1 ++ '[' :: DLE :: 'q' :: 'u' :: 'o' :: 't' :: 'e' :: ']' ::
        (Q2 ++ '[' :: DLE :: '/' :: 'q' :: 'u' :: 'o' :: 't' :: 'e' :: ']' ::
          (Q3 ++ t))) =
      Q1 ++ '[' :: DLE :: 'q' :: 'u' :: 'o' :: 't' :: 'e' :: ']' ::
        (Q2 ++ '[' :: DLE :: '/' :: 'q' :: 'u' :: 'o' :: 't' :: 'e' :: ']' ::
          (Q3 ++ markClose t)) := by
  rw [markClose_append _ h1]
  rw [markClose_cons_not_slash (by decide)]
  rw [markClose_cons_ne (by decide)]
  rw [show ('q' :: 'u' :: 'o' :: 't' :: 'e' :: ']' ::
      (Q2 ++ '[' :: DLE :: '/' :: 'q' :: 'u' :: 'o' :: 't' :: 'e' :: ']' ::
        (Q3 ++ t)) : List Char) =
      ['q', 'u', 'o', 't', 'e', ']'] ++
        (Q2 ++ '[' :: DLE :: '/' :: 'q' :: 'u' :: 'o' :: 't' :: 'e' :: ']' ::
          (Q3 ++ t)) from rfl]
  rw [markClose_append _ (by decide)]
  rw [markClose_append _ h2]
  rw [markClose_cons_not_slash (by decide)]
  rw [markClose_cons_ne (by decide)]
  rw [show ('/' :: 'q' :: 'u' :: 'o' :: 't' :: 'e' :: ']' ::
      (Q3 ++ t) : List Char) =
      ['/', 'q', 'u', 'o', 't', 'e', ']'] ++ (Q3 ++ t) from rfl]
  rw [markClose_append _ (by decide)]
  rw [markClose_append _ h3]
  rfl

theorem stripControl_protected (Q1 Q2 Q3 t : List Char)
    (h1 : ∀ c ∈ Q1, (!ctrlChar c) = true) (h2 : ∀ c ∈ Q2, (!ctrlChar c) = true)
    (h3 : ∀ c ∈ Q3, (!ctrlChar c) = true) :
    stripControl (Q1 ++ '[' :: DLE :: 'q' :: 'u' :: 'o' :: 't' :: 'e' :: ']' ::
        (Q2 ++ '[' :: DLE :: '/' :: 'q' :: 'u' :: 'o' :: 't' :: 'e' :: ']' ::
          (Q3 ++ t))) =
      Q1 ++ '[' :: 'q' :: 'u' :: 'o' :: 't' :: 'e' :: ']' ::
        (Q2 ++ '[' :: '/' :: 'q' :: 'u' :: 'o' :: 't' :: 'e' :: ']' ::
          (Q3 ++ stripControl t)) := by
  rw [stripControl_append, stripControl_eq_self h1]
  rw [stripControl_cons_keep (by decide), stripControl_cons_ctrl (by decide)]
  rw [stripControl_cons_keep (by decide), stripControl_cons_keep (by decide)]
  rw [stripControl_cons_keep (by decide), stripControl_cons_keep (by decide)]
  rw [stripControl_cons_keep (by decide), stripControl_cons_keep (by decide)]
  rw [stripControl_append, stripControl_eq_self h2]
  rw [stripControl_cons_keep (by decide), stripControl_cons_ctrl (by decide)]
  rw [stripControl_cons_keep (by decide), stripControl_cons_keep (by decide)]
  rw [stripControl_cons_keep (by decide), stripControl_cons_keep (by decide)]
  rw [stripControl_cons_keep (by decide), stripControl_cons_keep (by decide)]
  rw [stripControl_cons_keep (by decide)]
  rw [stripControl_append, stripControl_eq_self h3]

theorem collapseLoop_fix {cs : List Char} (h : replaceInner cs = cs) :
    collapseLoop cs = cs := by
  rw [collapseLoop]
  simp [h]

theorem collapseLoop_step {cs : List Char} (h : ¬(replaceInner cs = cs)) :
    collapseLoop cs = collapseLoop (replaceInner cs) := by
  rw [collapseLoop]
  simp [h]

theorem take_add_left (X t : List Char) (n : Nat) :
    (X ++ t).take (X.length + n) = X ++ t.take n := by
  induction X with
  | nil => simp
  | cons c r ih =>
    simp only [List.cons_append, List.length_cons]
    rw [show r.length + 1 + n = (r.length + n) + 1 from by omega]
    rw [List.take_succ_cons, ih]

theorem drop_add_left (X t : List Char) (n : Nat) :
    (X ++ t).drop (X.length + n) = t.drop n := by
  induction X with
  | nil => simp
  | cons c r ih =>
    simp only [List.cons_append, List.length_cons]
    rw [show r.length + 1 + n = (r.length + n) + 1 from by omega]
    rw [List.drop_succ_cons, ih]

theorem mem_quote_split {c : Char} {Q1 Q2 Q3 : List Char}
    (hc : c ∈ Q1 ++ '[' :: 'q' :: 'u' :: 'o' :: 't' :: 'e' :: ']' ::
      (Q2 ++ '[' :: '/' :: 'q' :: 'u' :: 'o' :: 't' :: 'e' :: ']' :: Q3)) :
    c ∈ Q1 ∨ c ∈ Q2 ∨ c ∈ Q3 ∨
      c ∈ (['[', ']', 'q', 'u', 'o', 't', 'e', '/'] : List Char) := by
  simp only [List.mem_append, List.mem_cons] at hc ⊢
  tauto

theorem mem_pquote_split {c : Char} {Q1 Q2 Q3 : List Char}
    (hc : c ∈ Q1 ++ '[' :: DLE :: 'q' :: 'u' :: 'o' :: 't' :: 'e' :: ']' ::
      (Q2 ++ '[' :: DLE :: '/' :: 'q' :: 'u' :: 'o' :: 't' :: 'e' :: ']' ::
        Q3)) :
    c ∈ Q1 ∨ c ∈ Q2 ∨ c ∈ Q3 ∨
      c ∈ (['[', ']', 'q', 'u', 'o', 't', 'e', '/', DLE] : List Char) := by
  simp only [List.mem_append, List.mem_cons] at hc ⊢
  tauto

theorem mem_fence_split {c : Char} {A B M : List Char}
    (hc : c ∈ A ++ '\n' :: BT :: BT :: BT :: '\n' ::
      (M ++ '\n' :: BT :: BT :: BT :: '\n' :: B)) :
    c ∈ A ∨ c ∈ M ∨ c ∈ B ∨ c ∈ (['\n', BT] : List Char) := by
  simp only [List.mem_append, List.mem_cons] at hc ⊢
  tauto

theorem mem_pfence_split {c : Char} {A B Q1 Q2 Q3 : List Char}
    (hc : c ∈ A ++ '\n' :: BT :: BT :: BT :: '\n' ::
      (Q1 ++ '[' :: DLE :: 'q' :: 'u' :: 'o' :: 't' :: 'e' :: ']' ::
        (Q2 ++ '[' :: DLE :: '/' :: 'q' :: 'u' :: 'o' :: 't' :: 'e' :: ']' ::
          (Q3 ++ '\n' :: BT :: BT :: BT :: '\n' :: B)))) :
    c ∈ A ∨ c ∈ Q1 ∨ c ∈ Q2 ∨ c ∈ Q3 ∨ c ∈ B ∨
      c ∈ (['\n', BT, '[', ']', 'q', 'u', 'o', 't', 'e', '/', DLE] :
        List Char) := by
  simp only [List.mem_append, List.mem_cons] at hc ⊢
  tauto

theorem cleanRaw_fenced (A B Q1 Q2 Q3 : List Char)
    (hA : A.all plainChar = true) (hB : B.all plainChar = true)
    (hQ1 : Q1.all plainChar = true) (hQ2 : Q2.all plainChar = true)
    (hQ3 : Q3.all plainChar = true) :
    cleanRaw (A ++ '\n' :: BT :: BT :: BT :: '\n' ::
        ((Q1 ++ '[' :: 'q' :: 'u' :: 'o' :: 't' :: 'e' :: ']' ::
          (Q2 ++ '[' :: '/' :: 'q' :: 'u' :: 'o' :: 't' :: 'e' :: ']' ::
            Q3)) ++
          '\n' :: BT :: BT :: BT :: '\n' :: B)) =
      A ++ '\n' :: B := by
  have hA_nl := all_plain_beq_false hA '\n' (by decide)
  have hA_bt := all_plain_beq_false hA BT (by decide)
  have hA_lb := all_plain_beq_false hA '[' (by decide)
  have hA_cr := all_plain_beq_false hA '\r' (by decide)
  have hA_ctrl := all_plain_not_ctrl hA
  have hB_nl := all_plain_beq_false hB '\n' (by decide)
  have hB_bt := all_plain_beq_false hB BT (by decide)
  have hB_lb := all_plain_beq_false hB '[' (by decide)
  have hB_cr := all_plain_beq_false hB '\r' (by decide)
  have hB_ctrl := all_plain_not_ctrl hB
  have hQ1_nl := all_plain_beq_false hQ1 '\n' (by decide)
  have hQ1_bt := all_plain_beq_false hQ1 BT (by decide)
  have hQ1_lb := all_plain_beq_false hQ1 '[' (by decide)
  have hQ1_cr := all_plain_beq_false hQ1 '\r' (by decide)
  have hQ1_ctrl := all_plain_not_ctrl hQ1
  have hQ2_nl := all_plain_beq_false hQ2 '\n' (by decide)
  have hQ2_bt := all_plain_beq_false hQ2 BT (by decide)
  have hQ2_lb := all_plain_beq_false hQ2 '[' (by decide)
  have hQ2_cr := all_plain_beq_false hQ2 '\r' (by decide)
  have hQ2_ctrl := all_plain_not_ctrl hQ2
  have hQ3_nl := all_plain_beq_false hQ3 '\n' (by decide)
  have hQ3_bt := all_plain_beq_false hQ3 BT (by decide)
  have hQ3_lb := all_plain_beq_false hQ3 '[' (by decide)
  have hQ3_cr := all_plain_beq_false hQ3 '\r' (by decide)
  have hQ3_ctrl := all_plain_not_ctrl hQ3
  have hQ_nl : ∀ c ∈ Q1 ++ '[' :: 'q' :: 'u' :: 'o' :: 't' :: 'e' :: ']' ::
      (Q2 ++ '[' :: '/' :: 'q' :: 'u' :: 'o' :: 't' :: 'e' :: ']' :: Q3),
      (c == '\n') = false := by
    intro c hc
    rcases mem_quote_split hc with h | h | h | h
    · exact hQ1_nl c h
    · exact hQ2_nl c h
    · exact hQ3_nl c h
    · exact (by decide : ∀ x ∈ (['[', ']', 'q', 'u', 'o', 't', 'e', '/'] :
        List Char), (x == '\n') = false) c h
  have hQ_bt : ∀ c ∈ Q1 ++ '[' :: 'q' :: 'u' :: 'o' :: 't' :: 'e' :: ']' ::
      (Q2 ++ '[' :: '/' :: 'q' :: 'u' :: 'o' :: 't' :: 'e' :: ']' :: Q3),
      (c == BT) = false := by
    intro c hc
    rcases mem_quote_split hc with h | h | h | h
    · exact hQ1_bt c h
    · exact hQ2_bt c h
    · exact hQ3_bt c h
    · exact (by decide : ∀ x ∈ (['[', ']', 'q', 'u', 'o', 't', 'e', '/'] :
        List Char), (x == BT) = false) c h
  have hQ_cr : ∀ c ∈ Q1 ++ '[' :: 'q' :: 'u' :: 'o' :: 't' :: 'e' :: ']' ::
      (Q2 ++ '[' :: '/' :: 'q' :: 'u' :: 'o' :: 't' :: 'e' :: ']' :: Q3),
      (c == '\r') = false := by
    intro c hc
    rcases mem_quote_split hc with h | h | h | h
    · exact hQ1_cr c h
    · exact hQ2_cr c h
    · exact hQ3_cr c h
    · exact (by decide : ∀ x ∈ (['[', ']', 'q', 'u', 'o', 't', 'e', '/'] :
        List Char), (x == '\r') = false) c h
  have hQ_ctrl : ∀ c ∈ Q1 ++ '[' :: 'q' :: 'u' :: 'o' :: 't' :: 'e' :: ']' ::
      (Q2 ++ '[' :: '/' :: 'q' :: 'u' :: 'o' :: 't' :: 'e' :: ']' :: Q3),
      (!ctrlChar c) = true := by
    intro c hc
    rcases mem_quote_split hc with h | h | h | h
    · exact hQ1_ctrl c h
    · exact hQ2_ctrl c h
    · exact hQ3_ctrl c h
    · exact (by decide : ∀ x ∈ (['[', ']', 'q', 'u', 'o', 't', 'e', '/'] :
        List Char), (!ctrlChar x) = true) c h
  have hM_bt : ∀ c ∈ Q1 ++ '[' :: DLE :: 'q' :: 'u' :: 'o' :: 't' :: 'e' ::
      ']' :: (Q2 ++ '[' :: DLE :: '/' :: 'q' :: 'u' :: 'o' :: 't' :: 'e' ::
        ']' :: Q3), (c == BT) = false := by
    intro c hc
    rcases mem_pquote_split hc with h | h | h | h
    · exact hQ1_bt c h
    · exact hQ2_bt c h
    · exact hQ3_bt c h
    · exact (by decide :
        ∀ x ∈ (['[', ']', 'q', 'u', 'o', 't', 'e', '/', DLE] : List Char),
          (x == BT) = false) c h
  have hM_nl : ∀ c ∈ Q1 ++ '[' :: DLE :: 'q' :: 'u' :: 'o' :: 't' :: 'e' ::
      ']' :: (Q2 ++ '[' :: DLE :: '/' :: 'q' :: 'u' :: 'o' :: 't' :: 'e' ::
        ']' :: Q3), (c == '\n') = false := by
    intro c hc
    rcases mem_pquote_split hc with h | h | h | h
    · exact hQ1_nl c h
    · exact hQ2_nl c h
    · exact hQ3_nl c h
    · exact (by decide :
        ∀ x ∈ (['[', ']', 'q', 'u', 'o', 't', 'e', '/', DLE] : List Char),
          (x == '\n') = false) c h
  have hW_cr : ∀ c ∈ A ++ '\n' :: BT :: BT :: BT :: '\n' ::
      ((Q1 ++ '[' :: 'q' :: 'u' :: 'o' :: 't' :: 'e' :: ']' ::
        (Q2 ++ '[' :: '/' :: 'q' :: 'u' :: 'o' :: 't' :: 'e' :: ']' ::
          Q3)) ++
        '\n' :: BT :: BT :: BT :: '\n' :: B), (c == '\r') = false := by
    intro c hc
    rcases mem_fence_split hc with h | h | h | h
    · exact hA_cr c h
    · exact hQ_cr c h
    · exact hB_cr c h
    · exact (by decide : ∀ x ∈ (['\n', BT] : List Char),
        (x == '\r') = false) c h
  have hW_ctrl : ∀ c ∈ A ++ '\n' :: BT :: BT :: BT :: '\n' ::
      ((Q1 ++ '[' :: 'q' :: 'u' :: 'o' :: 't' :: 'e' :: ']' ::
        (Q2 ++ '[' :: '/' :: 'q' :: 'u' :: 'o' :: 't' :: 'e' :: ']' ::
          Q3)) ++
        '\n' :: BT :: BT :: BT :: '\n' :: B), (!ctrlChar c) = true := by
    intro c hc
    rcases mem_fence_split hc with h | h | h | h
    · exact hA_ctrl c h
    · exact hQ_ctrl c h
    · exact hB_ctrl c h
    · exact (by decide : ∀ x ∈ (['\n', BT] : List Char),
        (!ctrlChar x) = true) c h
  have hWt_stx : ∀ c ∈ A ++ '\n' :: BT :: BT :: BT :: '\n' ::
      (Q1 ++ '[' :: DLE :: 'q' :: 'u' :: 'o' :: 't' :: 'e' :: ']' ::
        (Q2 ++ '[' :: DLE :: '/' :: 'q' :: 'u' :: 'o' :: 't' :: 'e' :: ']' ::
          (Q3 ++ '\n' :: BT :: BT :: BT :: '\n' :: B))),
      (c == STX) = false := by
    intro c hc
    rcases mem_pfence_split hc with h | h | h | h | h | h
    · exact all_plain_beq_false hA STX (by decide) c h
    · exact all_plain_beq_false hQ1 STX (by decide) c h
    · exact all_plain_beq_false hQ2 STX (by decide) c h
    · exact all_plain_beq_false hQ3 STX (by decide) c h
    · exact all_plain_beq_false hB STX (by decide) c h
    · exact (by decide :
        ∀ x ∈ (['\n', BT, '[', ']', 'q', 'u', 'o', 't', 'e', '/', DLE] :
          List Char), (x == STX) = false) c h
  have hTail_lb : ∀ c ∈ '\n' :: BT :: BT :: BT :: '\n' :: B,
      (c == '[') = false := by
    intro c hc
    simp only [List.mem_cons] at hc
    rcases hc with rfl | rfl | rfl | rfl | rfl | h
    · decide
    · decide
    · decide
    · decide
    · decide
    · exact hB_lb c h
  have hTail_ctrl : ∀ c ∈ '\n' :: BT :: BT :: BT :: '\n' :: B,
      (!ctrlChar c) = true := by
    intro c hc
    simp only [List.mem_cons] at hc
    rcases hc with rfl | rfl | rfl | rfl | rfl | h
    · decide
    · decide
    · decide
    · decide
    · decide
    · exact hB_ctrl c h
  have hPre_lb : ∀ c ∈ A ++ ['\n', BT, BT, BT, '\n'], (c == '[') = false :=
    allf_append_of hA_lb (by decide)
  have hPre_ctrl : ∀ c ∈ A ++ ['\n', BT, BT, BT, '\n'],
      (!ctrlChar c) = true :=
    all_append_of hA_ctrl (by decide)
  have hQ_close : flClose (Q1 ++ '[' :: 'q' :: 'u' :: 'o' :: 't' :: 'e' ::
      ']' :: (Q2 ++ '[' :: '/' :: 'q' :: 'u' :: 'o' :: 't' :: 'e' :: ']' ::
        Q3)) = false :=
    flClose_eq_false_of_mem (c := '[') (by simp) (by decide)
  have h_nn : normNewlines (A ++ '\n' :: BT :: BT :: BT :: '\n' ::
      ((Q1 ++ '[' :: 'q' :: 'u' :: 'o' :: 't' :: 'e' :: ']' ::
        (Q2 ++ '[' :: '/' :: 'q' :: 'u' :: 'o' :: 't' :: 'e' :: ']' ::
          Q3)) ++
        '\n' :: BT :: BT :: BT :: '\n' :: B)) =
      A ++ '\n' :: BT :: BT :: BT :: '\n' ::
      ((Q1 ++ '[' :: 'q' :: 'u' :: 'o' :: 't' :: 'e' :: ']' ::
        (Q2 ++ '[' :: '/' :: 'q' :: 'u' :: 'o' :: 't' :: 'e' :: ']' ::
          Q3)) ++
        '\n' :: BT :: BT :: BT :: '\n' :: B) :=
    normNewlines_eq_self hW_cr
  have h_sc1 : stripControl (A ++ '\n' :: BT :: BT :: BT :: '\n' ::
      ((Q1 ++ '[' :: 'q' :: 'u' :: 'o' :: 't' :: 'e' :: ']' ::
        (Q2 ++ '[' :: '/' :: 'q' :: 'u' :: 'o' :: 't' :: 'e' :: ']' ::
          Q3)) ++
        '\n' :: BT :: BT :: BT :: '\n' :: B)) =
      A ++ '\n' :: BT :: BT :: BT :: '\n' ::
      ((Q1 ++ '[' :: 'q' :: 'u' :: 'o' :: 't' :: 'e' :: ']' ::
        (Q2 ++ '[' :: '/' :: 'q' :: 'u' :: 'o' :: 't' :: 'e' :: ']' ::
          Q3)) ++
        '\n' :: BT :: BT :: BT :: '\n' :: B) :=
    stripControl_eq_self hW_ctrl
  have h_fg : ∀ f : List Char → List Char,
      fgGo f (A ++ '\n' :: BT :: BT :: BT :: '\n' ::
        ((Q1 ++ '[' :: 'q' :: 'u' :: 'o' :: 't' :: 'e' :: ']' ::
          (Q2 ++ '[' :: '/' :: 'q' :: 'u' :: 'o' :: 't' :: 'e' :: ']' ::
            Q3)) ++
          '\n' :: BT :: BT :: BT :: '\n' :: B)) =
      A ++ '\n' :: BT :: BT :: BT :: '\n' ::
        ((Q1 ++ '[' :: 'q' :: 'u' :: 'o' :: 't' :: 'e' :: ']' ::
          (Q2 ++ '[' :: '/' :: 'q' :: 'u' :: 'o' :: 't' :: 'e' :: ']' ::
            Q3)) ++
          '\n' :: BT :: BT :: BT :: '\n' :: B) := by
    intro f
    rw [fgGo_cons_line f _ hA_nl (fgOpen_eq_false hA_bt)]
    rw [show (BT :: BT :: BT :: '\n' ::
        ((Q1 ++ '[' :: 'q' :: 'u' :: 'o' :: 't' :: 'e' :: ']' ::
          (Q2 ++ '[' :: '/' :: 'q' :: 'u' :: 'o' :: 't' :: 'e' :: ']' ::
            Q3)) ++
          '\n' :: BT :: BT :: BT :: '\n' :: B) : List Char) =
        [BT, BT, BT] ++ '\n' ::
        ((Q1 ++ '[' :: 'q' :: 'u' :: 'o' :: 't' :: 'e' :: ']' ::
          (Q2 ++ '[' :: '/' :: 'q' :: 'u' :: 'o' :: 't' :: 'e' :: ']' ::
            Q3)) ++
          '\n' :: BT :: BT :: BT :: '\n' :: B) from rfl]
    rw [fgGo_cons_line f _ (by decide) (by decide)]
    rw [fgGo_cons_line f _ hQ_nl (fgOpen_eq_false hQ_bt)]
    rw [show (BT :: BT :: BT :: '\n' :: B : List Char) =
        [BT, BT, BT] ++ '\n' :: B from rfl]
    rw [fgGo_cons_line f _ (by decide) (by decide)]
    rw [fgGo_last f hB_nl]
  have h_fl : ∀ f : List Char → List Char,
      flGo f (A ++ '\n' :: BT :: BT :: BT :: '\n' ::
        ((Q1 ++ '[' :: 'q' :: 'u' :: 'o' :: 't' :: 'e' :: ']' ::
          (Q2 ++ '[' :: '/' :: 'q' :: 'u' :: 'o' :: 't' :: 'e' :: ']' ::
            Q3)) ++
          '\n' :: BT :: BT :: BT :: '\n' :: B)) =
      A ++ '\n' :: (f ([BT, BT, BT] ++ '\n' ::
        ((Q1 ++ '[' :: 'q' :: 'u' :: 'o' :: 't' :: 'e' :: ']' ::
          (Q2 ++ '[' :: '/' :: 'q' :: 'u' :: 'o' :: 't' :: 'e' :: ']' ::
            Q3)) ++
          ['\n', BT, BT, BT, '\n'])) ++ B) := by
    intro f
    rw [flGo_cons_line f _ hA_nl (flOpen_eq_false hA_bt)]
    rw [show (BT :: BT :: BT :: '\n' ::
        ((Q1 ++ '[' :: 'q' :: 'u' :: 'o' :: 't' :: 'e' :: ']' ::
          (Q2 ++ '[' :: '/' :: 'q' :: 'u' :: 'o' :: 't' :: 'e' :: ']' ::
            Q3)) ++
          '\n' :: BT :: BT :: BT :: '\n' :: B) : List Char) =
        [BT, BT, BT] ++ '\n' ::
        ((Q1 ++ '[' :: 'q' :: 'u' :: 'o' :: 't' :: 'e' :: ']' ::
          (Q2 ++ '[' :: '/' :: 'q' :: 'u' :: 'o' :: 't' :: 'e' :: ']' ::
            Q3)) ++
          '\n' :: BT :: BT :: BT :: '\n' :: B) from rfl]
    have hfc : flFindClose ((Q1 ++ '[' :: 'q' :: 'u' :: 'o' :: 't' :: 'e' ::
        ']' :: (Q2 ++ '[' :: '/' :: 'q' :: 'u' :: 'o' :: 't' :: 'e' :: ']' ::
          Q3)) ++
        '\n' :: BT :: BT :: BT :: '\n' :: B) =
        some ((Q1 ++ '[' :: 'q' :: 'u' :: 'o' :: 't' :: 'e' :: ']' ::
          (Q2 ++ '[' :: '/' :: 'q' :: 'u' :: 'o' :: 't' :: 'e' :: ']' ::
            Q3)).length + 5) := by
      rw [flFindClose_skip _ hQ_nl hQ_close]
      rw [show (BT :: BT :: BT :: '\n' :: B : List Char) =
          [BT, BT, BT] ++ '\n' :: B from rfl]
      rw [flFindClose_at_close]
      simp only [Option.map_some']
    rw [flGo_match f _ (by decide) (by decide) hfc]
    rw [take_add_left, drop_add_left]
    rw [show (('\n' :: BT :: BT :: BT :: '\n' :: B : List Char)).take 5 =
        ['\n', BT, BT, BT, '\n'] from rfl]
    rw [show (('\n' :: BT :: BT :: BT :: '\n' :: B : List Char)).drop 5 =
        B from rfl]
    rw [flGo_last f hB_nl]
  have hL5 : hidetags ['\n', BT, BT, BT, '\n'] = ['\n', BT, BT, BT, '\n'] := by
    rw [hidetags_cons_ne (by decide), hidetags_cons_ne (by decide),
      hidetags_cons_ne (by decide), hidetags_cons_ne (by decide),
      hidetags_cons_ne (by decide)]
    simp [hidetags]
  have hhide1 : hidetags ([BT, BT, BT] ++ '\n' ::
      ((Q1 ++ '[' :: 'q' :: 'u' :: 'o' :: 't' :: 'e' :: ']' ::
        (Q2 ++ '[' :: '/' :: 'q' :: 'u' :: 'o' :: 't' :: 'e' :: ']' ::
          Q3)) ++
        ['\n', BT, BT, BT, '\n'])) =
      [BT, BT, BT] ++ '\n' ::
        (Q1 ++ '[' :: DLE :: 'q' :: 'u' :: 'o' :: 't' :: 'e' :: ']' ::
          (Q2 ++ '[' :: DLE :: '/' :: 'q' :: 'u' :: 'o' :: 't' :: 'e' ::
            ']' :: (Q3 ++ ['\n', BT, BT, BT, '\n']))) := by
    rw [show ([BT, BT, BT] ++ '\n' ::
        ((Q1 ++ '[' :: 'q' :: 'u' :: 'o' :: 't' :: 'e' :: ']' ::
          (Q2 ++ '[' :: '/' :: 'q' :: 'u' :: 'o' :: 't' :: 'e' :: ']' ::
            Q3)) ++
          ['\n', BT, BT, BT, '\n']) : List Char) =
        [BT, BT, BT, '\n'] ++
          (Q1 ++ '[' :: 'q' :: 'u' :: 'o' :: 't' :: 'e' :: ']' ::
            (Q2 ++ '[' :: '/' :: 'q' :: 'u' :: 'o' :: 't' :: 'e' :: ']' ::
              (Q3 ++ ['\n', BT, BT, BT, '\n']))) from by simp]
    rw [hidetags_append _ (by decide)]
    rw [hidetags_quote _ _ _ _ hQ1_lb hQ2_lb hQ3_lb]
    rw [hL5]
    simp
  have h_fl4 : flGo hidetags (A ++ '\n' :: BT :: BT :: BT :: '\n' ::
      ((Q1 ++ '[' :: 'q' :: 'u' :: 'o' :: 't' :: 'e' :: ']' ::
        (Q2 ++ '[' :: '/' :: 'q' :: 'u' :: 'o' :: 't' :: 'e' :: ']' ::
          Q3)) ++
        '\n' :: BT :: BT :: BT :: '\n' :: B)) =
      A ++ '\n' :: BT :: BT :: BT :: '\n' ::
        (Q1 ++ '[' :: DLE :: 'q' :: 'u' :: 'o' :: 't' :: 'e' :: ']' ::
          (Q2 ++ '[' :: DLE :: '/' :: 'q' :: 'u' :: 'o' :: 't' :: 'e' ::
            ']' :: (Q3 ++ '\n' :: BT :: BT :: BT :: '\n' :: B))) := by
    rw [h_fl hidetags, hhide1]
    simp
  have hL4 : hidetags ('\n' :: [BT, BT, BT]) = '\n' :: [BT, BT, BT] := by
    rw [hidetags_cons_ne (by decide), hidetags_cons_ne (by decide),
      hidetags_cons_ne (by decide), hidetags_cons_ne (by decide)]
    simp [hidetags]
  have hhide2 : hidetags (BT :: BT :: BT :: '\n' ::
      ((Q1 ++ '[' :: DLE :: 'q' :: 'u' :: 'o' :: 't' :: 'e' :: ']' ::
        (Q2 ++ '[' :: DLE :: '/' :: 'q' :: 'u' :: 'o' :: 't' :: 'e' ::
          ']' :: Q3)) ++
        '\n' :: [BT, BT, BT])) =
      BT :: BT :: BT :: '\n' ::
        ((Q1 ++ '[' :: DLE :: 'q' :: 'u' :: 'o' :: 't' :: 'e' :: ']' ::
          (Q2 ++ '[' :: DLE :: '/' :: 'q' :: 'u' :: 'o' :: 't' :: 'e' ::
            ']' :: Q3)) ++
          '\n' :: [BT, BT, BT]) := by
    rw [show (BT :: BT :: BT :: '\n' ::
        ((Q1 ++ '[' :: DLE :: 'q' :: 'u' :: 'o' :: 't' :: 'e' :: ']' ::
          (Q2 ++ '[' :: DLE :: '/' :: 'q' :: 'u' :: 'o' :: 't' :: 'e' ::
            ']' :: Q3)) ++
          '\n' :: [BT, BT, BT]) : List Char) =
        [BT, BT, BT, '\n'] ++
          (Q1 ++ '[' :: DLE :: 'q' :: 'u' :: 'o' :: 't' :: 'e' :: ']' ::
            (Q2 ++ '[' :: DLE :: '/' :: 'q' :: 'u' :: 'o' :: 't' :: 'e' ::
              ']' :: (Q3 ++ '\n' :: [BT, BT, BT]))) from by simp]
    rw [hidetags_append _ (by decide)]
    rw [hidetags_protected _ _ _ _ hQ1_lb hQ2_lb hQ3_lb]
    rw [hL4]
  have h_il : inlineGo hidetags (A ++ '\n' :: BT :: BT :: BT :: '\n' ::
      (Q1 ++ '[' :: DLE :: 'q' :: 'u' :: 'o' :: 't' :: 'e' :: ']' ::
        (Q2 ++ '[' :: DLE :: '/' :: 'q' :: 'u' :: 'o' :: 't' :: 'e' ::
          ']' :: (Q3 ++ '\n' :: BT :: BT :: BT :: '\n' :: B)))) =
      A ++ '\n' :: BT :: BT :: BT :: '\n' ::
      (Q1 ++ '[' :: DLE :: 'q' :: 'u' :: 'o' :: 't' :: 'e' :: ']' ::
        (Q2 ++ '[' :: DLE :: '/' :: 'q' :: 'u' :: 'o' :: 't' :: 'e' ::
          ']' :: (Q3 ++ '\n' :: BT :: BT :: BT :: '\n' :: B))) := by
    rw [show (A ++ '\n' :: BT :: BT :: BT :: '\n' ::
        (Q1 ++ '[' :: DLE :: 'q' :: 'u' :: 'o' :: 't' :: 'e' :: ']' ::
          (Q2 ++ '[' :: DLE :: '/' :: 'q' :: 'u' :: 'o' :: 't' :: 'e' ::
            ']' :: (Q3 ++ '\n' :: BT :: BT :: BT :: '\n' :: B))) :
          List Char) =
        (A ++ ['\n']) ++ (BT :: BT :: BT :: '\n' ::
          ((Q1 ++ '[' :: DLE :: 'q' :: 'u' :: 'o' :: 't' :: 'e' :: ']' ::
            (Q2 ++ '[' :: DLE :: '/' :: 'q' :: 'u' :: 'o' :: 't' :: 'e' ::
              ']' :: Q3)) ++
            '\n' :: BT :: BT :: BT :: '\n' :: B)) from by simp]
    rw [inlineGo_append hidetags _ (allf_append_of hA_bt (by decide))]
    rw [inlineGo_fence hidetags _ B hM_bt hB_bt]
    rw [hhide2]
    simp
  have h_mo : markOpen (A ++ '\n' :: BT :: BT :: BT :: '\n' ::
      (Q1 ++ '[' :: DLE :: 'q' :: 'u' :: 'o' :: 't' :: 'e' :: ']' ::
        (Q2 ++ '[' :: DLE :: '/' :: 'q' :: 'u' :: 'o' :: 't' :: 'e' ::
          ']' :: (Q3 ++ '\n' :: BT :: BT :: BT :: '\n' :: B)))) =
      A ++ '\n' :: BT :: BT :: BT :: '\n' ::
      (Q1 ++ '[' :: DLE :: 'q' :: 'u' :: 'o' :: 't' :: 'e' :: ']' ::
        (Q2 ++ '[' :: DLE :: '/' :: 'q' :: 'u' :: 'o' :: 't' :: 'e' ::
          ']' :: (Q3 ++ '\n' :: BT :: BT :: BT :: '\n' :: B))) := by
    rw [show (A ++ '\n' :: BT :: BT :: BT :: '\n' ::
        (Q1 ++ '[' :: DLE :: 'q' :: 'u' :: 'o' :: 't' :: 'e' :: ']' ::
          (Q2 ++ '[' :: DLE :: '/' :: 'q' :: 'u' :: 'o' :: 't' :: 'e' ::
            ']' :: (Q3 ++ '\n' :: BT :: BT :: BT :: '\n' :: B))) :
          List Char) =
        (A ++ ['\n', BT, BT, BT, '\n']) ++
          (Q1 ++ '[' :: DLE :: 'q' :: 'u' :: 'o' :: 't' :: 'e' :: ']' ::
            (Q2 ++ '[' :: DLE :: '/' :: 'q' :: 'u' :: 'o' :: 't' :: 'e' ::
              ']' :: (Q3 ++ '\n' :: BT :: BT :: BT :: '\n' :: B)))
          from by simp]
    rw [markOpen_append _ hPre_lb]
    rw [markOpen_protected _ _ _ _ hQ1_lb hQ2_lb hQ3_lb]
    rw [markOpen_eq_self hTail_lb]
  have h_mc : markClose (A ++ '\n' :: BT :: BT :: BT :: '\n' ::
      (Q1 ++ '[' :: DLE :: 'q' :: 'u' :: 'o' :: 't' :: 'e' :: ']' ::
        (Q2 ++ '[' :: DLE :: '/' :: 'q' :: 'u' :: 'o' :: 't' :: 'e' ::
          ']' :: (Q3 ++ '\n' :: BT :: BT :: BT :: '\n' :: B)))) =
      A ++ '\n' :: BT :: BT :: BT :: '\n' ::
      (Q1 ++ '[' :: DLE :: 'q' :: 'u' :: 'o' :: 't' :: 'e' :: ']' ::
        (Q2 ++ '[' :: DLE :: '/' :: 'q' :: 'u' :: 'o' :: 't' :: 'e' ::
          ']' :: (Q3 ++ '\n' :: BT :: BT :: BT :: '\n' :: B))) := by
    rw [show (A ++ '\n' :: BT :: BT :: BT :: '\n' ::
        (Q1 ++ '[' :: DLE :: 'q' :: 'u' :: 'o' :: 't' :: 'e' :: ']' ::
          (Q2 ++ '[' :: DLE :: '/' :: 'q' :: 'u' :: 'o' :: 't' :: 'e' ::
            ']' :: (Q3 ++ '\n' :: BT :: BT :: BT :: '\n' :: B))) :
          List Char) =
        (A ++ ['\n', BT, BT, BT, '\n']) ++
          (Q1 ++ '[' :: DLE :: 'q' :: 'u' :: 'o' :: 't' :: 'e' :: ']' ::
            (Q2 ++ '[' :: DLE :: '/' :: 'q' :: 'u' :: 'o' :: 't' :: 'e' ::
              ']' :: (Q3 ++ '\n' :: BT :: BT :: BT :: '\n' :: B)))
          from by simp]
    rw [markClose_append _ hPre_lb]
    rw [markClose_protected _ _ _ _ hQ1_lb hQ2_lb hQ3_lb]
    rw [markClose_eq_self hTail_lb]
  have h_clp : collapseLoop (A ++ '\n' :: BT :: BT :: BT :: '\n' ::
      (Q1 ++ '[' :: DLE :: 'q' :: 'u' :: 'o' :: 't' :: 'e' :: ']' ::
        (Q2 ++ '[' :: DLE :: '/' :: 'q' :: 'u' :: 'o' :: 't' :: 'e' ::
          ']' :: (Q3 ++ '\n' :: BT :: BT :: BT :: '\n' :: B)))) =
      A ++ '\n' :: BT :: BT :: BT :: '\n' ::
      (Q1 ++ '[' :: DLE :: 'q' :: 'u' :: 'o' :: 't' :: 'e' :: ']' ::
        (Q2 ++ '[' :: DLE :: '/' :: 'q' :: 'u' :: 'o' :: 't' :: 'e' ::
          ']' :: (Q3 ++ '\n' :: BT :: BT :: BT :: '\n' :: B))) :=
    collapseLoop_fix (replaceInner_eq_self hWt_stx)
  have h_su : stripUnbalanced (A ++ '\n' :: BT :: BT :: BT :: '\n' ::
      (Q1 ++ '[' :: DLE :: 'q' :: 'u' :: 'o' :: 't' :: 'e' :: ']' ::
        (Q2 ++ '[' :: DLE :: '/' :: 'q' :: 'u' :: 'o' :: 't' :: 'e' ::
          ']' :: (Q3 ++ '\n' :: BT :: BT :: BT :: '\n' :: B)))) =
      A ++ '\n' :: BT :: BT :: BT :: '\n' ::
      (Q1 ++ '[' :: DLE :: 'q' :: 'u' :: 'o' :: 't' :: 'e' :: ']' ::
        (Q2 ++ '[' :: DLE :: '/' :: 'q' :: 'u' :: 'o' :: 't' :: 'e' ::
          ']' :: (Q3 ++ '\n' :: BT :: BT :: BT :: '\n' :: B))) :=
    stripUnbalanced_eq_self hWt_stx
  have h_gf : guardFence (A ++ '\n' :: BT :: BT :: BT :: '\n' ::
      (Q1 ++ '[' :: DLE :: 'q' :: 'u' :: 'o' :: 't' :: 'e' :: ']' ::
        (Q2 ++ '[' :: DLE :: '/' :: 'q' :: 'u' :: 'o' :: 't' :: 'e' ::
          ']' :: (Q3 ++ '\n' :: BT :: BT :: BT :: '\n' :: B)))) =
      A ++ '\n' :: BT :: BT :: BT :: '\n' ::
      (Q1 ++ '[' :: DLE :: 'q' :: 'u' :: 'o' :: 't' :: 'e' :: ']' ::
        (Q2 ++ '[' :: DLE :: '/' :: 'q' :: 'u' :: 'o' :: 't' :: 'e' ::
          ']' :: (Q3 ++ '\n' :: BT :: BT :: BT :: '\n' :: B))) := by
    rw [guardFence_cons_line _ hA_nl]
    rw [show (BT :: BT :: BT :: '\n' ::
        (Q1 ++ '[' :: DLE :: 'q' :: 'u' :: 'o' :: 't' :: 'e' :: ']' ::
          (Q2 ++ '[' :: DLE :: '/' :: 'q' :: 'u' :: 'o' :: 't' :: 'e' ::
            ']' :: (Q3 ++ '\n' :: BT :: BT :: BT :: '\n' :: B))) :
          List Char) =
        [BT, BT, BT] ++ '\n' ::
          ((Q1 ++ '[' :: DLE :: 'q' :: 'u' :: 'o' :: 't' :: 'e' :: ']' ::
            (Q2 ++ '[' :: DLE :: '/' :: 'q' :: 'u' :: 'o' :: 't' :: 'e' ::
              ']' :: Q3)) ++
            '\n' :: BT :: BT :: BT :: '\n' :: B) from by simp]
    rw [guardFence_cons_line _ (by decide)]
    rw [guardFence_cons_line _ hM_nl]
    rw [show (BT :: BT :: BT :: '\n' :: B : List Char) =
        [BT, BT, BT] ++ '\n' :: B from rfl]
    rw [guardFence_cons_line _ (by decide)]
    rw [guardFence_last hB_nl]
    rw [guardLine_eq_self_no_bt hA_bt, guardLine_eq_self_no_bt hM_bt,
      guardLine_eq_self_no_bt hB_bt,
      guardLine_eq_self_no_sub (by decide :
        ∀ c ∈ ([BT, BT, BT] : List Char), (c == SUB) = false)]
  have h_sc2 : stripControl (A ++ '\n' :: BT :: BT :: BT :: '\n' ::
      (Q1 ++ '[' :: DLE :: 'q' :: 'u' :: 'o' :: 't' :: 'e' :: ']' ::
        (Q2 ++ '[' :: DLE :: '/' :: 'q' :: 'u' :: 'o' :: 't' :: 'e' ::
          ']' :: (Q3 ++ '\n' :: BT :: BT :: BT :: '\n' :: B)))) =
      A ++ '\n' :: BT :: BT :: BT :: '\n' ::
      ((Q1 ++ '[' :: 'q' :: 'u' :: 'o' :: 't' :: 'e' :: ']' ::
        (Q2 ++ '[' :: '/' :: 'q' :: 'u' :: 'o' :: 't' :: 'e' :: ']' ::
          Q3)) ++
        '\n' :: BT :: BT :: BT :: '\n' :: B) := by
    rw [show (A ++ '\n' :: BT :: BT :: BT :: '\n' ::
        (Q1 ++ '[' :: DLE :: 'q' :: 'u' :: 'o' :: 't' :: 'e' :: ']' ::
          (Q2 ++ '[' :: DLE :: '/' :: 'q' :: 'u' :: 'o' :: 't' :: 'e' ::
            ']' :: (Q3 ++ '\n' :: BT :: BT :: BT :: '\n' :: B))) :
          List Char) =
        (A ++ ['\n', BT, BT, BT, '\n']) ++
          (Q1 ++ '[' :: DLE :: 'q' :: 'u' :: 'o' :: 't' :: 'e' :: ']' ::
            (Q2 ++ '[' :: DLE :: '/' :: 'q' :: 'u' :: 'o' :: 't' :: 'e' ::
              ']' :: (Q3 ++ '\n' :: BT :: BT :: BT :: '\n' :: B)))
          from by simp]
    rw [stripControl_append]
    rw [stripControl_eq_self hPre_ctrl]
    rw [stripControl_protected _ _ _ _ hQ1_ctrl hQ2_ctrl hQ3_ctrl]
    rw [stripControl_eq_self hTail_ctrl]
    simp
  rw [cleanRaw]
  rw [h_nn, h_sc1, h_fg hidetags, h_fl4, h_il, h_mo, h_mc, h_clp, h_su,
    h_gf, h_sc2, h_fg (fun _ => []), h_fl (fun _ => [])]
  simp

/-- Claim C2: for every post whose raw text contains a fenced code block
whose body holds literal quote-open and quote-close tags, the tags are not
interpreted as quote markup (the surrounding text survives unchanged,
which the quote-collapsing pass would forbid if a quote region had
opened), the complete fenced block is absent from the cleaned text, and
the original raw text is left unmodified. -/
theorem claim_C2 (post : DPost) (A B Q1 Q2 Q3 : List Char)
    (hA : A.all plainChar = true) (hB : B.all plainChar = true)
    (hQ1 : Q1.all plainChar = true) (hQ2 : Q2.all plainChar = true)
    (hQ3 : Q3.all plainChar = true)
    (hraw : post.raw = some (A ++ '\n' :: BT :: BT :: BT :: '\n' ::
      ((Q1 ++ '[' :: 'q' :: 'u' :: 'o' :: 't' :: 'e' :: ']' ::
        (Q2 ++ '[' :: '/' :: 'q' :: 'u' :: 'o' :: 't' :: 'e' :: ']' ::
          Q3)) ++
        '\n' :: BT :: BT :: BT :: '\n' :: B))) :
    (cleanPostRaw post).cleaned = some (A ++ '\n' :: B) ∧
    (cleanPostRaw post).raw = post.raw := by
  constructor
  · simp only [cleanPostRaw, hraw, Option.getD_some]
    rw [cleanRaw_fenced A B Q1 Q2 Q3 hA hB hQ1 hQ2 hQ3]
  · rfl

/-- Witness for claim C2 at a concrete post: raw text
`a` newline ``` newline `x[quote]y[/quote]z` newline ``` newline `b`. -/
theorem claim_C2_witness :
    (cleanPostRaw
      { raw := some (['a'] ++ '\n' :: BT :: BT :: BT :: '\n' ::
          ((['x'] ++ '[' :: 'q' :: 'u' :: 'o' :: 't' :: 'e' :: ']' ::
            (['y'] ++ '[' :: '/' :: 'q' :: 'u' :: 'o' :: 't' :: 'e' :: ']' ::
              ['z'])) ++
            '\n' :: BT :: BT :: BT :: '\n' :: ['b'])),
        cleaned := none, username := [], trust_level := 0,
        admin := false, moderator := false, staff := false }).cleaned =
      some (['a'] ++ '\n' :: ['b']) ∧
    (cleanPostRaw
      { raw := some (['a'] ++ '\n' :: BT :: BT :: BT :: '\n' ::
          ((['x'] ++ '[' :: 'q' :: 'u' :: 'o' :: 't' :: 'e' :: ']' ::
            (['y'] ++ '[' :: '/' :: 'q' :: 'u' :: 'o' :: 't' :: 'e' :: ']' ::
              ['z'])) ++
            '\n' :: BT :: BT :: BT :: '\n' :: ['b'])),
        cleaned := none, username := [], trust_level := 0,
        admin := false, moderator := false, staff := false }).raw =
      DPost.raw
      { raw := some (['a'] ++ '\n' :: BT :: BT :: BT :: '\n' ::
          ((['x'] ++ '[' :: 'q' :: 'u' :: 'o' :: 't' :: 'e' :: ']' ::
            (['y'] ++ '[' :: '/' :: 'q' :: 'u' :: 'o' :: 't' :: 'e' :: ']' ::
              ['z'])) ++
            '\n' :: BT :: BT :: BT :: '\n' :: ['b'])),
        cleaned := none, username := [], trust_level := 0,
        admin := false, moderator := false, staff := false } :=
  claim_C2 _ ['a'] ['b'] ['x'] ['y'] ['z'] (by decide) (by decide)
    (by decide) (by decide) (by decide) rfl

theorem markClose_openTag (t : List Char) :
    markClose ('[' :: 'q' :: 'u' :: 'o' :: 't' :: 'e' :: ']' :: t) =
      '[' :: 'q' :: 'u' :: 'o' :: 't' :: 'e' :: ']' :: markClose t := by
  rw [markClose_cons_not_slash (by decide)]
  rw [markClose_cons_ne (c := 'q') (by decide),
    markClose_cons_ne (c := 'u') (by decide),
    markClose_cons_ne (c := 'o') (by decide),
    markClose_cons_ne (c := 't') (by decide),
    markClose_cons_ne (c := 'e') (by decide),
    markClose_cons_ne (c := ']') (by decide)]

theorem mem_nested_split {c : Char} {A Bq C D E : List Char}
    (hc : c ∈ A ++ '[' :: 'q' :: 'u' :: 'o' :: 't' :: 'e' :: ']' ::
      (Bq ++ '[' :: 'q' :: 'u' :: 'o' :: 't' :: 'e' :: ']' ::
        (C ++ '[' :: '/' :: 'q' :: 'u' :: 'o' :: 't' :: 'e' :: ']' ::
          (D ++ '[' :: '/' :: 'q' :: 'u' :: 'o' :: 't' :: 'e' :: ']' ::
            E)))) :
    c ∈ A ∨ c ∈ Bq ∨ c ∈ C ∨ c ∈ D ∨ c ∈ E ∨
      c ∈ (['[', ']', 'q', 'u', 'o', 't', 'e', '/'] : List Char) := by
  simp only [List.mem_append, List.mem_cons] at hc ⊢
  tauto

theorem cleanRaw_nested (A Bq C D E : List Char)
    (hA : A.all plainChar = true) (hBq : Bq.all plainChar = true)
    (hC : C.all plainChar = true) (hD : D.all plainChar = true)
    (hE : E.all plainChar = true) :
    cleanRaw (A ++ '[' :: 'q' :: 'u' :: 'o' :: 't' :: 'e' :: ']' ::
      (Bq ++ '[' :: 'q' :: 'u' :: 'o' :: 't' :: 'e' :: ']' ::
        (C ++ '[' :: '/' :: 'q' :: 'u' :: 'o' :: 't' :: 'e' :: ']' ::
          (D ++ '[' :: '/' :: 'q' :: 'u' :: 'o' :: 't' :: 'e' :: ']' ::
            E)))) = A ++ E := by
  have hA_lb := all_plain_beq_false hA '[' (by decide)
  have hBq_lb := all_plain_beq_false hBq '[' (by decide)
  have hC_lb := all_plain_beq_false hC '[' (by decide)
  have hD_lb := all_plain_beq_false hD '[' (by decide)
  have hE_lb := all_plain_beq_false hE '[' (by decide)
  have hA_stx := all_plain_beq_false hA STX (by decide)
  have hD_stx := all_plain_beq_false hD STX (by decide)
  have hE_stx := all_plain_beq_false hE STX (by decide)
  have hA_nl := all_plain_beq_false hA '\n' (by decide)
  have hE_nl := all_plain_beq_false hE '\n' (by decide)
  have hA_bt := all_plain_beq_false hA BT (by decide)
  have hE_bt := all_plain_beq_false hE BT (by decide)
  have hBq_nstp : ∀ c ∈ Bq, (!(c == STX || c == ETX)) = true :=
    all_not_stop_of (all_plain_beq_false hBq STX (by decide))
      (all_plain_beq_false hBq ETX (by decide))
  have hC_nstp : ∀ c ∈ C, (!(c == STX || c == ETX)) = true :=
    all_not_stop_of (all_plain_beq_false hC STX (by decide))
      (all_plain_beq_false hC ETX (by decide))
  have hD_nstp : ∀ c ∈ D, (!(c == STX || c == ETX)) = true :=
    all_not_stop_of (all_plain_beq_false hD STX (by decide))
      (all_plain_beq_false hD ETX (by decide))
  have hW_nl : ∀ c ∈ A ++ '[' :: 'q' :: 'u' :: 'o' :: 't' :: 'e' :: ']' ::
      (Bq ++ '[' :: 'q' :: 'u' :: 'o' :: 't' :: 'e' :: ']' ::
        (C ++ '[' :: '/' :: 'q' :: 'u' :: 'o' :: 't' :: 'e' :: ']' ::
          (D ++ '[' :: '/' :: 'q' :: 'u' :: 'o' :: 't' :: 'e' :: ']' ::
            E))), (c == '\n') = false := by
    intro c hc
    rcases mem_nested_split hc with h | h | h | h | h | h
    · exact all_plain_beq_false hA '\n' (by decide) c h
    · exact all_plain_beq_false hBq '\n' (by decide) c h
    · exact all_plain_beq_false hC '\n' (by decide) c h
    · exact all_plain_beq_false hD '\n' (by decide) c h
    · exact all_plain_beq_false hE '\n' (by decide) c h
    · exact (by decide : ∀ x ∈ (['[', ']', 'q', 'u', 'o', 't', 'e', '/'] :
        List Char), (x == '\n') = false) c h
  have hW_cr : ∀ c ∈ A ++ '[' :: 'q' :: 'u' :: 'o' :: 't' :: 'e' :: ']' ::
      (Bq ++ '[' :: 'q' :: 'u' :: 'o' :: 't' :: 'e' :: ']' ::
        (C ++ '[' :: '/' :: 'q' :: 'u' :: 'o' :: 't' :: 'e' :: ']' ::
          (D ++ '[' :: '/' :: 'q' :: 'u' :: 'o' :: 't' :: 'e' :: ']' ::
            E))), (c == '\r') = false := by
    intro c hc
    rcases mem_nested_split hc with h | h | h | h | h | h
    · exact all_plain_beq_false hA '\r' (by decide) c h
    · exact all_plain_beq_false hBq '\r' (by decide) c h
    · exact all_plain_beq_false hC '\r' (by decide) c h
    · exact all_plain_beq_false hD '\r' (by decide) c h
    · exact all_plain_beq_false hE '\r' (by decide) c h
    · exact (by decide : ∀ x ∈ (['[', ']', 'q', 'u', 'o', 't', 'e', '/'] :
        List Char), (x == '\r') = false) c h
  have hW_bt : ∀ c ∈ A ++ '[' :: 'q' :: 'u' :: 'o' :: 't' :: 'e' :: ']' ::
      (Bq ++ '[' :: 'q' :: 'u' :: 'o' :: 't' :: 'e' :: ']' ::
        (C ++ '[' :: '/' :: 'q' :: 'u' :: 'o' :: 't' :: 'e' :: ']' ::
          (D ++ '[' :: '/' :: 'q' :: 'u' :: 'o' :: 't' :: 'e' :: ']' ::
            E))), (c == BT) = false := by
    intro c hc
    rcases mem_nested_split hc with h | h | h | h | h | h
    · exact all_plain_beq_false hA BT (by decide) c h
    · exact all_plain_beq_false hBq BT (by decide) c h
    · exact all_plain_beq_false hC BT (by decide) c h
    · exact all_plain_beq_false hD BT (by decide) c h
    · exact all_plain_beq_false hE BT (by decide) c h
    · exact (by decide : ∀ x ∈ (['[', ']', 'q', 'u', 'o', 't', 'e', '/'] :
        List Char), (x == BT) = false) c h
  have hW_ctrl : ∀ c ∈ A ++ '[' :: 'q' :: 'u' :: 'o' :: 't' :: 'e' :: ']' ::
      (Bq ++ '[' :: 'q' :: 'u' :: 'o' :: 't' :: 'e' :: ']' ::
        (C ++ '[' :: '/' :: 'q' :: 'u' :: 'o' :: 't' :: 'e' :: ']' ::
          (D ++ '[' :: '/' :: 'q' :: 'u' :: 'o' :: 't' :: 'e' :: ']' ::
            E))), (!ctrlChar c) = true := by
    intro c hc
    rcases mem_nested_split hc with h | h | h | h | h | h
    · exact all_plain_not_ctrl hA c h
    · exact all_plain_not_ctrl hBq c h
    · exact all_plain_not_ctrl hC c h
    · exact all_plain_not_ctrl hD c h
    · exact all_plain_not_ctrl hE c h
    · exact (by decide : ∀ x ∈ (['[', ']', 'q', 'u', 'o', 't', 'e', '/'] :
        List Char), (!ctrlChar x) = true) c h
  have hTailD_stx : ∀ c ∈ '[' :: '/' :: 'q' :: 'u' :: 'o' :: 't' :: 'e' ::
      ']' :: ETX :: E, (c == STX) = false := by
    intro c hc
    simp only [List.mem_cons] at hc
    rcases hc with rfl | rfl | rfl | rfl | rfl | rfl | rfl | rfl | rfl | h
    · decide
    · decide
    · decide
    · decide
    · decide
    · decide
    · decide
    · decide
    · decide
    · exact hE_stx c h
  have h_mo : markOpen (A ++ '[' :: 'q' :: 'u' :: 'o' :: 't' :: 'e' :: ']' ::
      (Bq ++ '[' :: 'q' :: 'u' :: 'o' :: 't' :: 'e' :: ']' ::
        (C ++ '[' :: '/' :: 'q' :: 'u' :: 'o' :: 't' :: 'e' :: ']' ::
          (D ++ '[' :: '/' :: 'q' :: 'u' :: 'o' :: 't' :: 'e' :: ']' ::
            E)))) =
      A ++ STX :: '[' :: 'q' :: 'u' :: 'o' :: 't' :: 'e' :: ']' ::
      (Bq ++ STX :: '[' :: 'q' :: 'u' :: 'o' :: 't' :: 'e' :: ']' ::
        (C ++ '[' :: '/' :: 'q' :: 'u' :: 'o' :: 't' :: 'e' :: ']' ::
          (D ++ '[' :: '/' :: 'q' :: 'u' :: 'o' :: 't' :: 'e' :: ']' ::
            E))) := by
    rw [markOpen_append _ hA_lb, markOpen_quote]
    rw [markOpen_append _ hBq_lb, markOpen_quote]
    rw [markOpen_append _ hC_lb, markOpen_closeTag]
    rw [markOpen_append _ hD_lb, markOpen_closeTag]
    rw [markOpen_eq_self hE_lb]
  have h_mc : markClose (A ++ STX :: '[' :: 'q' :: 'u' :: 'o' :: 't' ::
      'e' :: ']' ::
      (Bq ++ STX :: '[' :: 'q' :: 'u' :: 'o' :: 't' :: 'e' :: ']' ::
        (C ++ '[' :: '/' :: 'q' :: 'u' :: 'o' :: 't' :: 'e' :: ']' ::
          (D ++ '[' :: '/' :: 'q' :: 'u' :: 'o' :: 't' :: 'e' :: ']' ::
            E)))) =
      A ++ STX :: '[' :: 'q' :: 'u' :: 'o' :: 't' :: 'e' :: ']' ::
      (Bq ++ STX :: '[' :: 'q' :: 'u' :: 'o' :: 't' :: 'e' :: ']' ::
        (C ++ '[' :: '/' :: 'q' :: 'u' :: 'o' :: 't' :: 'e' :: ']' ::
          ETX ::
          (D ++ '[' :: '/' :: 'q' :: 'u' :: 'o' :: 't' :: 'e' :: ']' ::
            ETX :: E))) := by
    rw [markClose_append _ hA_lb]
    rw [markClose_cons_ne (c := STX) (by decide)]
    rw [markClose_openTag]
    rw [markClose_append _ hBq_lb]
    rw [markClose_cons_ne (c := STX) (by decide)]
    rw [markClose_openTag]
    rw [markClose_append _ hC_lb]
    rw [markClose_close]
    rw [markClose_append _ hD_lb]
    rw [markClose_close]
    rw [markClose_eq_self hE_lb]
  have hri1 : replaceInner (A ++ STX :: '[' :: 'q' :: 'u' :: 'o' :: 't' ::
      'e' :: ']' ::
      (Bq ++ STX :: '[' :: 'q' :: 'u' :: 'o' :: 't' :: 'e' :: ']' ::
        (C ++ '[' :: '/' :: 'q' :: 'u' :: 'o' :: 't' :: 'e' :: ']' ::
          ETX ::
          (D ++ '[' :: '/' :: 'q' :: 'u' :: 'o' :: 't' :: 'e' :: ']' ::
            ETX :: E)))) =
      A ++ STX :: ((['[', 'q', 'u', 'o', 't', 'e', ']'] ++ Bq) ++
        SUB :: (D ++ '[' :: '/' :: 'q' :: 'u' :: 'o' :: 't' :: 'e' :: ']' ::
          ETX :: E)) := by
    rw [replaceInner_append _ hA_stx]
    rw [show ('[' :: 'q' :: 'u' :: 'o' :: 't' :: 'e' :: ']' ::
        (Bq ++ STX :: '[' :: 'q' :: 'u' :: 'o' :: 't' :: 'e' :: ']' ::
          (C ++ '[' :: '/' :: 'q' :: 'u' :: 'o' :: 't' :: 'e' :: ']' ::
            ETX ::
            (D ++ '[' :: '/' :: 'q' :: 'u' :: 'o' :: 't' :: 'e' :: ']' ::
              ETX :: E))) : List Char) =
        (['[', 'q', 'u', 'o', 't', 'e', ']'] ++ Bq) ++
          STX :: ('[' :: 'q' :: 'u' :: 'o' :: 't' :: 'e' :: ']' ::
            (C ++ '[' :: '/' :: 'q' :: 'u' :: 'o' :: 't' :: 'e' :: ']' ::
              ETX ::
              (D ++ '[' :: '/' :: 'q' :: 'u' :: 'o' :: 't' :: 'e' :: ']' ::
                ETX :: E))) from by simp]
    rw [replaceInner_stx_skip _ _
      (all_append_of (by decide) hBq_nstp)]
    rw [show ('[' :: 'q' :: 'u' :: 'o' :: 't' :: 'e' :: ']' ::
        (C ++ '[' :: '/' :: 'q' :: 'u' :: 'o' :: 't' :: 'e' :: ']' ::
          ETX ::
          (D ++ '[' :: '/' :: 'q' :: 'u' :: 'o' :: 't' :: 'e' :: ']' ::
            ETX :: E)) : List Char) =
        (['[', 'q', 'u', 'o', 't', 'e', ']'] ++
          (C ++ ['[', '/', 'q', 'u', 'o', 't', 'e', ']'])) ++
          ETX ::
          (D ++ '[' :: '/' :: 'q' :: 'u' :: 'o' :: 't' :: 'e' :: ']' ::
            ETX :: E) from by simp]
    rw [replaceInner_stx_match _ _
      (all_append_of (by decide) (all_append_of hC_nstp (by decide)))]
    rw [replaceInner_append _ hD_stx]
    rw [replaceInner_eq_self hTailD_stx]
  have hne1 : ¬(replaceInner (A ++ STX :: '[' :: 'q' :: 'u' :: 'o' :: 't' ::
      'e' :: ']' ::
      (Bq ++ STX :: '[' :: 'q' :: 'u' :: 'o' :: 't' :: 'e' :: ']' ::
        (C ++ '[' :: '/' :: 'q' :: 'u' :: 'o' :: 't' :: 'e' :: ']' ::
          ETX ::
          (D ++ '[' :: '/' :: 'q' :: 'u' :: 'o' :: 't' :: 'e' :: ']' ::
            ETX :: E)))) =
      A ++ STX :: '[' :: 'q' :: 'u' :: 'o' :: 't' :: 'e' :: ']' ::
      (Bq ++ STX :: '[' :: 'q' :: 'u' :: 'o' :: 't' :: 'e' :: ']' ::
        (C ++ '[' :: '/' :: 'q' :: 'u' :: 'o' :: 't' :: 'e' :: ']' ::
          ETX ::
          (D ++ '[' :: '/' :: 'q' :: 'u' :: 'o' :: 't' :: 'e' :: ']' ::
            ETX :: E)))) := by
    rw [hri1]
    intro he
    have hl := congrArg List.length he
    simp only [List.length_append, List.length_cons, List.length_nil] at hl
    omega
  have hri2 : replaceInner (A ++ STX ::
      ((['[', 'q', 'u', 'o', 't', 'e', ']'] ++ Bq) ++
        SUB :: (D ++ '[' :: '/' :: 'q' :: 'u' :: 'o' :: 't' :: 'e' :: ']' ::
          ETX :: E))) = A ++ SUB :: E := by
    rw [replaceInner_append _ hA_stx]
    rw [show ((['[', 'q', 'u', 'o', 't', 'e', ']'] ++ Bq) ++
        SUB :: (D ++ '[' :: '/' :: 'q' :: 'u' :: 'o' :: 't' :: 'e' :: ']' ::
          ETX :: E) : List Char) =
        (['[', 'q', 'u', 'o', 't', 'e', ']'] ++
          (Bq ++ SUB :: (D ++ ['[', '/', 'q', 'u', 'o', 't', 'e', ']']))) ++
          ETX :: E from by simp]
    rw [replaceInner_stx_match _ _
      (all_append_of (by decide) (all_append_of hBq_nstp
        (all_cons_of (by decide)
          (all_append_of hD_nstp (by decide)))))]
    rw [replaceInner_eq_self hE_stx]
  have hne2 : ¬(replaceInner (A ++ STX ::
      ((['[', 'q', 'u', 'o', 't', 'e', ']'] ++ Bq) ++
        SUB :: (D ++ '[' :: '/' :: 'q' :: 'u' :: 'o' :: 't' :: 'e' :: ']' ::
          ETX :: E))) =
      A ++ STX :: ((['[', 'q', 'u', 'o', 't', 'e', ']'] ++ Bq) ++
        SUB :: (D ++ '[' :: '/' :: 'q' :: 'u' :: 'o' :: 't' :: 'e' :: ']' ::
          ETX :: E))) := by
    rw [hri2]
    intro he
    have hl := congrArg List.length he
    simp only [List.length_append, List.length_cons, List.length_nil] at hl
    omega
  have hASE_stx : ∀ c ∈ A ++ SUB :: E, (c == STX) = false :=
    allf_append_of hA_stx (allf_cons_of (by decide) hE_stx)
  have hASE_nl : ∀ c ∈ A ++ SUB :: E, (c == '\n') = false :=
    allf_append_of hA_nl (allf_cons_of (by decide) hE_nl)
  have hASE_bt : ∀ c ∈ A ++ SUB :: E, (c == BT) = false :=
    allf_append_of hA_bt (allf_cons_of (by decide) hE_bt)
  have hAE_nl : ∀ c ∈ A ++ E, (c == '\n') = false :=
    allf_append_of hA_nl hE_nl
  have h_clp : collapseLoop (A ++ STX :: '[' :: 'q' :: 'u' :: 'o' :: 't' ::
      'e' :: ']' ::
      (Bq ++ STX :: '[' :: 'q' :: 'u' :: 'o' :: 't' :: 'e' :: ']' ::
        (C ++ '[' :: '/' :: 'q' :: 'u' :: 'o' :: 't' :: 'e' :: ']' ::
          ETX ::
          (D ++ '[' :: '/' :: 'q' :: 'u' :: 'o' :: 't' :: 'e' :: ']' ::
            ETX :: E)))) = A ++ SUB :: E := by
    rw [collapseLoop_step hne1, hri1, collapseLoop_step hne2, hri2,
      collapseLoop_fix (replaceInner_eq_self hASE_stx)]
  have h_sc2 : stripControl (A ++ SUB :: E) = A ++ E := by
    rw [stripControl_append, stripControl_eq_self (all_plain_not_ctrl hA),
      stripControl_cons_ctrl (by decide),
      stripControl_eq_self (all_plain_not_ctrl hE)]
  rw [cleanRaw]
  rw [normNewlines_eq_self hW_cr, stripControl_eq_self hW_ctrl,
    fgGo_last hidetags hW_nl, flGo_last hidetags hW_nl,
    inlineGo_eq_self hidetags hW_bt, h_mo, h_mc, h_clp,
    stripUnbalanced_eq_self hASE_stx]
  rw [guardFence_last hASE_nl, guardLine_eq_self_no_bt hASE_bt]
  rw [h_sc2, fgGo_last _ hAE_nl, flGo_last _ hAE_nl]

/-- Claim C1: for every post whose raw text has the nested-quote form
`A[quote]B[quote]C[/quote]D[/quote]E` with plain surrounding text, the
cleaned field equals `AE`: the collapse loop first resolves the innermost
balanced pair (the inner open tag with the first close tag) and then the
outer one, removing both quote blocks and their contents, while the raw
text is left unmodified. -/
theorem claim_C1 (post : DPost) (A Bq C D E : List Char)
    (hA : A.all plainChar = true) (hBq : Bq.all plainChar = true)
    (hC : C.all plainChar = true) (hD : D.all plainChar = true)
    (hE : E.all plainChar = true)
    (hraw : post.raw = some (A ++ '[' :: 'q' :: 'u' :: 'o' :: 't' :: 'e' ::
      ']' ::
      (Bq ++ '[' :: 'q' :: 'u' :: 'o' :: 't' :: 'e' :: ']' ::
        (C ++ '[' :: '/' :: 'q' :: 'u' :: 'o' :: 't' :: 'e' :: ']' ::
          (D ++ '[' :: '/' :: 'q' :: 'u' :: 'o' :: 't' :: 'e' :: ']' ::
            E))))) :
    (cleanPostRaw post).cleaned = some (A ++ E) ∧
    (cleanPostRaw post).raw = post.raw := by
  constructor
  · simp only [cleanPostRaw, hraw, Option.getD_some]
    rw [cleanRaw_nested A Bq C D E hA hBq hC hD hE]
  · rfl

/-- Witness for claim C1 at a concrete post: raw text
`A[quote]B[quote]C[/quote]D[/quote]E`. -/
theorem claim_C1_witness :
    (cleanPostRaw
      { raw := some (['A'] ++ '[' :: 'q' :: 'u' :: 'o' :: 't' :: 'e' ::
          ']' ::
          (['B'] ++ '[' :: 'q' :: 'u' :: 'o' :: 't' :: 'e' :: ']' ::
            (['C'] ++ '[' :: '/' :: 'q' :: 'u' :: 'o' :: 't' :: 'e' :: ']' ::
              (['D'] ++ '[' :: '/' :: 'q' :: 'u' :: 'o' :: 't' :: 'e' ::
                ']' :: ['E'])))),
        cleaned := none, username := [], trust_level := 0,
        admin := false, moderator := false, staff := false }).cleaned =
      some (['A'] ++ ['E']) ∧
    (cleanPostRaw
      { raw := some (['A'] ++ '[' :: 'q' :: 'u' :: 'o' :: 't' :: 'e' ::
          ']' ::
          (['B'] ++ '[' :: 'q' :: 'u' :: 'o' :: 't' :: 'e' :: ']' ::
            (['C'] ++ '[' :: '/' :: 'q' :: 'u' :: 'o' :: 't' :: 'e' :: ']' ::
              (['D'] ++ '[' :: '/' :: 'q' :: 'u' :: 'o' :: 't' :: 'e' ::
                ']' :: ['E'])))),
        cleaned := none, username := [], trust_level := 0,
        admin := false, moderator := false, staff := false }).raw =
      DPost.raw
      { raw := some (['A'] ++ '[' :: 'q' :: 'u' :: 'o' :: 't' :: 'e' ::
          ']' ::
          (['B'] ++ '[' :: 'q' :: 'u' :: 'o' :: 't' :: 'e' :: ']' ::
            (['C'] ++ '[' :: '/' :: 'q' :: 'u' :: 'o' :: 't' :: 'e' :: ']' ::
              (['D'] ++ '[' :: '/' :: 'q' :: 'u' :: 'o' :: 't' :: 'e' ::
                ']' :: ['E'])))),
        cleaned := none, username := [], trust_level := 0,
        admin := false, moderator := false, staff := false } :=
  claim_C1 _ ['A'] ['B'] ['C'] ['D'] ['E'] (by decide) (by decide)
    (by decide) (by decide) (by decide) rfl

/-! ## Claim theorems: commands and browser basics -/

/-- Claim C3 (code bug record): when the response body does not decode as
JSON, the queue worker's callback receives the original raw string
unchanged, not the `undefined` sentinel promised by the worker's own
`requestComplete` documentation. -/
theorem claim_C3 :
    queueWorkerBody (β := Unit) (fun _ => none) (some ("<html>").data) =
      BodyOut.keep (some ("<html>").data) ∧
    queueWorkerBody (β := Unit) (fun _ => none) (some ("<html>").data) ≠
      BodyOut.keep none := by
  exact ⟨rfl, by decide⟩

/-- Claim C4 counterexample: the mention regex requires a command word of
at least three characters, so `@BotName do thing` parses to no command. -/
theorem claim_C4_counterexample :
    parseMentionCommand ("BotName").data ("@BotName do thing").data = none := by
  rfl

/-- Claim C4 (amended): with a command word of the required minimum length
three, `@BotName foo thing` — and, case-insensitively, `@botname foo
thing` — yields command `foo`, args `[thing]`, and input reconstructed as
`!foo thing`. -/
theorem claim_C4 :
    parseMentionCommand ("BotName").data ("@BotName foo thing").data =
      some ⟨("!foo thing").data, ("foo").data, [("thing").data],
        some ("@BotName").data⟩ ∧
    parseMentionCommand ("BotName").data ("@botname foo thing").data =
      some ⟨("!foo thing").data, ("foo").data, [("thing").data],
        some ("@botname").data⟩ := by
  exact ⟨rfl, rfl⟩

/-- Claim C5: short-form parsing requires a command word of at least three
characters: any line `!w args` with a command word shorter than 3 parses to
no command; `!ab foo` parses to none while `!abc foo` yields command `abc`,
args `[foo]`, and no mention. -/
theorem claim_C5 :
    (∀ (w rest : List Char), (∀ c ∈ w, isWs c = false) → w.length < 3 →
      parseShortCommand ('!' :: (w ++ ' ' :: rest)) = none) ∧
    parseShortCommand ("!ab foo").data = none ∧
    parseShortCommand ("!abc foo").data =
      some ⟨("!abc foo").data, ("abc").data, [("foo").data], none⟩ := by
  refine ⟨fun w rest hw hlen => ?_, rfl, rfl⟩
  have htw : (w ++ ' ' :: rest).takeWhile (fun d => !isWs d) = w := by
    rw [takeWhile_append_of_all _ (fun c hc => by simp [hw c hc])]
    simp [List.takeWhile_cons, isWs]
  have hst : shortTest ('!' :: (w ++ ' ' :: rest)) = false := by
    simp only [shortTest, htw]
    simp
    omega
  simp [parseShortCommand, hst]

theorem readPostsTrace_general :
    ∀ (n : Nat) (ids : List Nat), ids.length ≤ n →
      (∀ b ∈ readPostsBatches ids, b.length ≤ 200) ∧
      (readPostsBatches ids).flatten = ids ∧
      (readPostsTrace ids).count RPEvent.complete = 1 ∧
      (readPostsTrace ids).getLast? = some RPEvent.complete := by
  intro n
  induction n with
  | zero =>
    intro ids hle
    have h0 : ids = [] := List.eq_nil_of_length_eq_zero (Nat.le_zero.mp hle)
    subst h0
    simp [readPostsTrace, readPostsBatches]
  | succ n ih =>
    intro ids hle
    by_cases h0 : ids.length = 0
    · have hnil : ids = [] := List.eq_nil_of_length_eq_zero h0
      subst hnil
      simp [readPostsTrace, readPostsBatches]
    · have htr : readPostsTrace ids =
          RPEvent.task (ids.take 200) :: readPostsTrace (ids.drop 200) := by
        rw [readPostsTrace]
        rw [if_neg h0]
      have hlen : (ids.drop 200).length ≤ n := by
        simp only [List.length_drop]
        omega
      obtain ⟨ihb, ihf, ihc, ihl⟩ := ih (ids.drop 200) hlen
      have hbat : readPostsBatches ids =
          ids.take 200 :: readPostsBatches (ids.drop 200) := by
        simp [readPostsBatches, htr]
      refine ⟨?_, ?_, ?_, ?_⟩
      · intro b hb
        rw [hbat] at hb
        rcases List.mem_cons.mp hb with hb1 | hb1
        · subst hb1
          simp [List.length_take]
        · exact ihb b hb1
      · rw [hbat]
        simp only [List.flatten_cons, ihf]
        exact List.take_append_drop 200 ids
      · rw [htr]
        simp [List.count_cons, ihc]
      · rw [htr]
        rcases htl : readPostsTrace (ids.drop 200) with _ | ⟨x, xs⟩
        · rw [htl] at ihl
          simp at ihl
        · rw [htl] at ihl
          rw [List.getLast?_cons_cons]
          exact ihl

/-- Claim C6: `readPosts` slices batches of at most 200 ids, submitting one
task per batch until the list is exhausted, with the completion callback
firing exactly once, after the last batch; with 450 ids exactly three
batches of sizes 200, 200 and 50 are issued in that order, followed by the
single completion. -/
theorem claim_C6 :
    ∀ ids : List Nat,
      (ids.length = 450 →
        readPostsTrace ids =
          [RPEvent.task (ids.take 200),
            RPEvent.task ((ids.drop 200).take 200),
            RPEvent.task ((ids.drop 200).drop 200), RPEvent.complete] ∧
        (ids.take 200).length = 200 ∧
        ((ids.drop 200).take 200).length = 200 ∧
        ((ids.drop 200).drop 200).length = 50) ∧
      (∀ b ∈ readPostsBatches ids, b.length ≤ 200) ∧
      (readPostsBatches ids).flatten = ids ∧
      (readPostsTrace ids).count RPEvent.complete = 1 ∧
      (readPostsTrace ids).getLast? = some RPEvent.complete := by
  intro ids
  obtain ⟨hb, hf, hc, hl⟩ :=
    readPostsTrace_general ids.length ids (Nat.le_refl _)
  refine ⟨fun h450 => ?_, hb, hf, hc, hl⟩
  have hl1 : (ids.drop 200).length = 250 := by
    simp [List.length_drop, h450]
  have hl2 : ((ids.drop 200).drop 200).length = 50 := by
    simp [List.length_drop, h450]
  have hl3 : (((ids.drop 200).drop 200).drop 200).length = 0 := by
    simp [List.length_drop, h450]
  have ht3 : ((ids.drop 200).drop 200).take 200 = (ids.drop 200).drop 200 :=
    List.take_of_length_le (by omega)
  have e1 : readPostsTrace ids =
      RPEvent.task (ids.take 200) :: readPostsTrace (ids.drop 200) := by
    rw [readPostsTrace]
    rw [if_neg (by omega)]
  have e2 : readPostsTrace (ids.drop 200) =
      RPEvent.task ((ids.drop 200).take 200) ::
        readPostsTrace ((ids.drop 200).drop 200) := by
    rw [readPostsTrace]
    rw [if_neg (by omega)]
  have e3 : readPostsTrace ((ids.drop 200).drop 200) =
      RPEvent.task (((ids.drop 200).drop 200).take 200) ::
        readPostsTrace (((ids.drop 200).drop 200).drop 200) := by
    rw [readPostsTrace]
    rw [if_neg (by omega)]
  have e4 : readPostsTrace (((ids.drop 200).drop 200).drop 200) =
      [RPEvent.complete] := by
    rw [readPostsTrace]
    rw [if_pos hl3]
  refine ⟨?_, by simp [List.length_take, h450], by simp [List.length_take, hl1],
    hl2⟩
  rw [e1, e2, e3, e4, ht3]

/-- Claim C7: when the CSRF step's callback reports an error, the login
task is never queued; the CSRF error is surfaced to the caller and the
only network task issued is the CSRF request. -/
theorem claim_C7 :
    ∀ (e : List Char) (loginRes : Except (List Char) (List Char)),
      (loginRun (.error e) loginRes).1 = [NetStep.csrfTask] ∧
      NetStep.loginTask ∉ (loginRun (.error e) loginRes).1 ∧
      (loginRun (.error e) loginRes).2 = .error e := by
  intro e loginRes
  refine ⟨rfl, ?_, rfl⟩
  simp [loginRun, getCSRFRun]

/-- Claim C8: trust classification evaluates owner, admin, moderator,
staff, then the ignore list, first match winning: an owner-named author
gets the owner level; an admin (even one also flagged moderator) gets the
admin level and never the moderator level; a moderator who is not admin
gets the moderator level; staff likewise; an ignored author matching no
earlier rule gets the ignored level; and a post matching no rule keeps its
original numeric trust level untouched. -/
theorem claim_C8 :
    ∀ (config : Config) (post : DPost),
      (post.username = config.owner →
        (setTrustLevel config post).trust_level = trustLevels.owner) ∧
      (post.username ≠ config.owner → post.admin = true →
        (setTrustLevel config post).trust_level = trustLevels.admin ∧
        (setTrustLevel config post).trust_level ≠ trustLevels.moderator) ∧
      (post.username ≠ config.owner → post.admin = false →
        post.moderator = true →
        (setTrustLevel config post).trust_level = trustLevels.moderator) ∧
      (post.username ≠ config.owner → post.admin = false →
        post.moderator = false → post.staff = true →
        (setTrustLevel config post).trust_level = trustLevels.staff) ∧
      (post.username ≠ config.owner → post.admin = false →
        post.moderator = false → post.staff = false →
        post.username ∈ config.ignoreUsers →
        (setTrustLevel config post).trust_level = trustLevels.ignored) ∧
      (post.username ≠ config.owner → post.admin = false →
        post.moderator = false → post.staff = false →
        post.username ∉ config.ignoreUsers →
        setTrustLevel config post = post) := by
  intro config post
  refine ⟨fun h => ?_, fun h ha => ⟨?_, ?_⟩, fun h ha hm => ?_,
    fun h ha hm hs => ?_, fun h ha hm hs hi => ?_, fun h ha hm hs hi => ?_⟩
  · simp [setTrustLevel, h, trustLevels.owner]
  · simp [setTrustLevel, h, ha, trustLevels.admin]
  · simp [setTrustLevel, h, ha, trustLevels.admin, trustLevels.moderator]
  · simp [setTrustLevel, h, ha, hm, trustLevels.moderator]
  · simp [setTrustLevel, h, ha, hm, hs, trustLevels.staff]
  · simp [setTrustLevel, h, ha, hm, hs, hi, trustLevels.ignored]
  · simp [setTrustLevel, h, ha, hm, hs, hi]

/-- Claim C9: for a dispatched command with no mention whose
`command#<name>` event is unhandled, `command#ERROR` is emitted; when that
too is unhandled, the generic `error` event is raised exactly once; a
handled command or one with a mention prefix emits only its own event (the
fallback chain never runs); and the parse call itself returns through its
callback, never throwing, whenever a callback is supplied. -/
theorem claim_C9 :
    ∀ (handled : List Char → Bool) (cmd : ParsedCommand)
      (username : List Char) (post : Option CPost),
      (cmd.mention = none →
        handled (("command#").data ++ cmd.command) = false →
        handled (("command#ERROR").data) = false →
        dispatchEvents handled cmd =
          [("command#").data ++ cmd.command, ("command#ERROR").data,
            ("error").data] ∧
        (dispatchEvents handled cmd).count (("error").data) = 1) ∧
      (cmd.mention = none →
        handled (("command#").data ++ cmd.command) = false →
        handled (("command#ERROR").data) = true →
        dispatchEvents handled cmd =
          [("command#").data ++ cmd.command, ("command#ERROR").data]) ∧
      (∀ m, cmd.mention = some m →
        dispatchEvents handled cmd = [("command#").data ++ cmd.command]) ∧
      (handled (("command#").data ++ cmd.command) = true →
        dispatchEvents handled cmd = [("command#").data ++ cmd.command]) ∧
      parseCommandsCall username post true =
        .ok (none, parseCommands username post) := by
  intro handled cmd username post
  have hne1 : ¬(("command#").data ++ cmd.command = ("error").data) := by
    intro h
    have := congrArg List.length h
    simp at this
  refine ⟨fun hm h1 h2 => ?_, fun hm h1 h2 => ?_, fun m hm => ?_,
    fun h1 => ?_, rfl⟩
  · have htr : dispatchEvents handled cmd =
        [("command#").data ++ cmd.command, ("command#ERROR").data,
          ("error").data] := by
      simp only [dispatchEvents]
      rw [h1, hm, h2]
      simp
    refine ⟨htr, ?_⟩
    rw [htr]
    simp [List.count_cons, hne1]
  · simp only [dispatchEvents]
    rw [h1, hm, h2]
    simp
  · simp only [dispatchEvents]
    rw [hm]
    simp
  · simp only [dispatchEvents]
    rw [h1]
    simp

/-- Claim C10: with a callback supplied, a missing post or a post without
raw text makes `parseCommands` call back with a null error and an empty
command list and dispatch no events; with a callback supplied the call
never throws for any post, and only a missing callback throws. -/
theorem claim_C10 :
    ∀ (username : List Char) (handled : List Char → Bool)
      (post : Option CPost),
      parseCommandsCall username none true = .ok (none, []) ∧
      parseCommandsCall username (some ⟨none⟩) true = .ok (none, []) ∧
      allDispatched handled username none = [] ∧
      allDispatched handled username (some ⟨none⟩) = [] ∧
      parseCommandsCall username post false =
        .error (("callback must be supplied").data) ∧
      parseCommandsCall username post true =
        .ok (none, parseCommands username post) := by
  intro username handled post
  exact ⟨rfl, rfl, rfl, rfl, rfl, rfl⟩

end SockBot
